import Mathlib

/-!
Verification development for the cluster cryptographic graph engine
(`src/cluster_crypto.rs` of the `recert` repository).

The Rust code is shallowly embedded as follows:

* The `HashMap` registries of `ClusterCryptoObjectsInternal` become
  association lists (`List (κ × ρ)`); a `HashMap` has an unspecified but
  fixed iteration order during any single run, which the list order models.
* `Rc<RefCell<…>>` references into the `cert_key_pairs` vector become
  indices (`Nat`) into that list; references to registry records become the
  record's content key (registry keys are unique, so content identifies the
  record).  Interior mutation through such a reference becomes an update of
  the indexed element.
* External crypto primitives (`verify_signed_by_certificate`,
  `openssl_is_signed`, `verify_jwt`, `PublicKey::from(&PrivateKey)`) and the
  `KNOWN_MISSING_PRIVATE_KEY_CERTS` allowlist with its regex engine live in
  other modules / crates, so they are parameters collected in a `CryptoEnv`
  record.  `openssl_is_signed` is an out-of-process check on the two
  certificates, so it is modelled as a function of the two certificate
  contents.
* `panic!` / `assert!` aborts become `Except` errors (structured where the
  panic message carries data the spec talks about).
-/

/-- Opaque logical address at which an artifact was observed
(etcd key + JSON path or file path; content irrelevant here). -/
abbrev Location := Nat

/-- The `Locations` newtype: a set of locations, modelled as an
insertion-ordered duplicate-free list (Rust stores a hash set). -/
structure Locations where
  locs : List Location
deriving DecidableEq

/-- Set insertion into a `Locations` value (`locations.0.insert(location)`). -/
def Locations.insert (L : Locations) (l : Location) : Locations :=
  if l ∈ L.locs then L else ⟨L.locs ++ [l]⟩

/-- Content key of a private key (algorithm + key material). -/
abbrev PrivateKey := Nat

/-- Content key of a public key (algorithm + key material). -/
abbrev PublicKey := Nat

/-- Content key of a JWT (the canonical token string). -/
abbrev Jwt := Nat

/-- The parsed X.509 certificate object (`certificate.original` in the
source): subject, issuer and the raw content that makes two certificates
compare equal or not. -/
structure X509 where
  subject : String
  issuer : String
  raw : Nat
deriving DecidableEq

/-- The method `subject_is_issuer()` of the x509 object: a certificate is
self-signed when its subject equals its issuer. -/
def subject_is_issuer (c : X509) : Bool :=
  c.subject == c.issuer

/-- The `Certificate` struct of the `certificate` module: the parsed object
plus the derived subject public key and subject string used by the engine. -/
structure Certificate where
  original : X509
  public_key : PublicKey
  subject : String
deriving DecidableEq

/-- The `Signee` variant: either a cert-key pair (identified by its index in
`cert_key_pairs`) or a jwt (identified by its registry content key). -/
inductive Signee where
  | CertKeyPair (i : Nat)
  | Jwt (j : Jwt)
deriving DecidableEq

/-- The `JwtSigner` variant recorded on a `DistributedJwt`. -/
inductive JwtSigner where
  | Unknown
  | PrivateKey (k : PrivateKey)
  | CertKeyPair (i : Nat)
deriving DecidableEq

/-- A `DistributedCert`: one certificate plus every location it was seen at. -/
structure DistributedCert where
  certificate : Certificate
  locations : Locations
deriving DecidableEq

/-- A `DistributedPrivateKey` registry record. -/
structure DistributedPrivateKey where
  locations : Locations
  key : PrivateKey
  signees : List Signee
  associated_distributed_public_key : Option PublicKey
  regenerated : Bool
deriving DecidableEq

/-- A `DistributedPublicKey` registry record. -/
structure DistributedPublicKey where
  locations : Locations
  key : PublicKey
  regenerated : Bool
deriving DecidableEq

/-- A `DistributedJwt` registry record. -/
structure DistributedJwt where
  jwt : Jwt
  locations : Locations
  signer : JwtSigner
  regenerated : Bool
deriving DecidableEq

/-- A `CertKeyPair`: the composite joining a certificate with its matching
private key (if any), its signer (index of another pair, if any), its
signees, an optionally associated public key and the regeneration flag. -/
structure CertKeyPair where
  distributed_private_key : Option DistributedPrivateKey
  distributed_cert : DistributedCert
  signer : Option Nat
  signees : List Signee
  associated_public_key : Option PublicKey
  regenerated : Bool
deriving DecidableEq

/-- The aggregate state `ClusterCryptoObjectsInternal`: the four
content-keyed registries, the public-to-private index and the list of
cert-key pairs. -/
structure ClusterCryptoObjectsInternal where
  private_keys : List (PrivateKey × DistributedPrivateKey)
  public_keys : List (PublicKey × DistributedPublicKey)
  certs : List (Certificate × DistributedCert)
  jwts : List (Jwt × DistributedJwt)
  public_to_private : List (PublicKey × PrivateKey)
  cert_key_pairs : List CertKeyPair
deriving DecidableEq

/-- Lookup in an association list (models `HashMap` lookup; with unique keys
the first match is the only one). -/
def lookupA {κ ρ : Type} [DecidableEq κ] : List (κ × ρ) → κ → Option ρ
  | [], _ => none
  | (k, v) :: rest, key => if k = key then some v else lookupA rest key

/-- Apply a function to the value of the first entry with the given key. -/
def modifyA {κ ρ : Type} [DecidableEq κ] : List (κ × ρ) → κ → (ρ → ρ) → List (κ × ρ)
  | [], _, _ => []
  | (k, v) :: rest, key, f =>
    if k = key then (k, f v) :: rest else (k, v) :: modifyA rest key f

/-- `HashMap::insert` semantics: overwrite the entry if the key is present,
append it otherwise. -/
def insertA {κ ρ : Type} [DecidableEq κ] (m : List (κ × ρ)) (key : κ) (v : ρ) : List (κ × ρ) :=
  match lookupA m key with
  | none => m ++ [(key, v)]
  | some _ => modifyA m key (fun _ => v)

/-- `HashMap::remove` semantics (under unique keys): drop the entry. -/
def removeA {κ ρ : Type} [DecidableEq κ] (m : List (κ × ρ)) (key : κ) : List (κ × ρ) :=
  m.filter (fun kv => kv.1 ≠ key)

/-- The `Vacant` / `Occupied` upsert pattern of
`register_discovered_crypto_objects`: create `fresh` if the key is absent,
otherwise mutate the existing record with `touch`. -/
def upsertA {κ ρ : Type} [DecidableEq κ] (m : List (κ × ρ)) (key : κ) (fresh : ρ)
    (touch : ρ → ρ) : List (κ × ρ) :=
  match lookupA m key with
  | none => m ++ [(key, fresh)]
  | some _ => modifyA m key touch

/-- The tagged union produced by discovery (`crypto_objects::CryptoObject`). -/
inductive CryptoObject where
  | PrivateKey (private_part : PrivateKey) (public_part : PublicKey)
  | PublicKey (public_key : PublicKey)
  | Certificate (hashable_cert : Certificate)
  | Jwt (jwt : Jwt)
deriving DecidableEq

/-- A discovery event (`DiscoveredCryptoObect`, spelled as in the source). -/
structure DiscoveredCryptoObect where
  location : Location
  crypto_object : CryptoObject
deriving DecidableEq

/-- One iteration of the loop body of `register_discovered_crypto_objects`
(lines 503-574): dispatch on the object kind and upsert the matching
registry; a private key additionally refreshes the public-to-private index. -/
def registerOne (s : ClusterCryptoObjectsInternal) (d : DiscoveredCryptoObect) :
    ClusterCryptoObjectsInternal :=
  match d.crypto_object with
  | .PrivateKey private_part public_part =>
      { s with
        public_to_private := insertA s.public_to_private public_part private_part,
        private_keys := upsertA s.private_keys private_part
          { locations := ⟨[d.location]⟩, key := private_part, signees := [],
            associated_distributed_public_key := none, regenerated := false }
          (fun r => { r with locations := r.locations.insert d.location }) }
  | .PublicKey public_key =>
      { s with
        public_keys := upsertA s.public_keys public_key
          { locations := ⟨[d.location]⟩, key := public_key, regenerated := false }
          (fun r => { r with locations := r.locations.insert d.location }) }
  | .Certificate hashable_cert =>
      { s with
        certs := upsertA s.certs hashable_cert
          { certificate := hashable_cert, locations := ⟨[d.location]⟩ }
          (fun r => { r with locations := r.locations.insert d.location }) }
  | .Jwt jwt =>
      { s with
        jwts := upsertA s.jwts jwt
          { jwt := jwt, locations := ⟨[d.location]⟩, signer := .Unknown, regenerated := false }
          (fun r => { r with locations := r.locations.insert d.location }) }

/-- `register_discovered_crypto_objects`: fold the stream of discovery
events into the registries. -/
def register_discovered_crypto_objects (s : ClusterCryptoObjectsInternal)
    (discovered_crypto_objects : List DiscoveredCryptoObect) : ClusterCryptoObjectsInternal :=
  discovered_crypto_objects.foldl registerOne s

/-- Outcome of `verify_signed_by_certificate` as dispatched on by
`fill_cert_key_signers` (lines 287-299): success, the two recoverable
`X509CertificateError` variants, and every other error. -/
inductive VerifyResult where
  | ok
  | signatureFailed
  | unsupported
  | other (msg : String)
deriving DecidableEq

/-- External collaborators consumed by the engine: the crypto primitives of
`crypto_utils` / the `x509_certificate` crate and the
`KNOWN_MISSING_PRIVATE_KEY_CERTS` allowlist of the `rules` module (a single
list whose entries are matched both literally and as regex patterns, via the
abstract `regexMatch`).  `verifyCert child cand` is
`child.verify_signed_by_certificate(&cand)`; `opensslIsSigned cand child` is
`openssl_is_signed(&cand_pair, &child_pair)`, an out-of-process check on the
two certificate contents; `pubOf` is `PublicKey::from(&PrivateKey)`. -/
structure CryptoEnv where
  verifyCert : X509 → X509 → VerifyResult
  opensslIsSigned : X509 → X509 → Bool
  verifyJwt : PublicKey → Jwt → Bool
  pubOf : PrivateKey → PublicKey
  knownMissingPrivateKeyCerts : List String
  regexMatch : String → String → Bool

/-- Whether one scan step of `fill_cert_key_signers` accepts the candidate
as signer of `child`: either the primitive verifies, or it reports an
unsupported algorithm and the out-of-process OpenSSL check confirms. -/
def candidateVerifies (env : CryptoEnv) (child cand : X509) : Bool :=
  match env.verifyCert child cand with
  | .ok => true
  | .signatureFailed => false
  | .unsupported => env.opensslIsSigned cand child
  | .other _ => false

/-- Aborts of `fill_cert_key_signers`: an unexpected verification error
(line 298) or no signing cert found, naming the cert's locations
(lines 303-308). -/
inductive CertSignError where
  | verifyError (msg : String)
  | noSigningCert (locs : Locations)
deriving DecidableEq

/-- The candidate scan of `fill_cert_key_signers` (lines 277-301): walk all
cert-key pairs, overwrite `true_signing_cert` (the accumulator) whenever a
candidate verifies, consult OpenSSL on an unsupported-algorithm report, and
abort on any other verification error.  `n` is the index of the first
element of the remaining candidate list. -/
def scanCandidates (env : CryptoEnv) (child : X509) :
    Nat → List CertKeyPair → Option Nat → Except CertSignError (Option Nat)
  | _, [], acc => .ok acc
  | i, c :: rest, acc =>
    match env.verifyCert child c.distributed_cert.certificate.original with
    | .ok => scanCandidates env child (i + 1) rest (some i)
    | .signatureFailed => scanCandidates env child (i + 1) rest acc
    | .unsupported =>
        if env.opensslIsSigned c.distributed_cert.certificate.original child then
          scanCandidates env child (i + 1) rest (some i)
        else
          scanCandidates env child (i + 1) rest acc
    | .other msg => .error (.verifyError msg)

/-- One iteration of the outer loop of `fill_cert_key_signers`
(lines 269-312): a self-signed certificate gets `signer := none` without any
candidate scan; any other certificate gets the scan result, aborting when it
is empty. -/
def fillOneCertSigner (env : CryptoEnv) (pairs : List CertKeyPair) (p : CertKeyPair) :
    Except CertSignError CertKeyPair :=
  if subject_is_issuer p.distributed_cert.certificate.original then
    .ok { p with signer := none }
  else
    match scanCandidates env p.distributed_cert.certificate.original 0 pairs none with
    | .error e => .error e
    | .ok none => .error (.noSigningCert p.distributed_cert.locations)
    | .ok (some i) => .ok { p with signer := some i }

/-- Map a fallible function over a list, stopping at the first error (the
effect of a `panic!` inside a `for` loop). -/
def mapE {α β ε : Type} (f : α → Except ε β) : List α → Except ε (List β)
  | [] => .ok []
  | a :: rest =>
    match f a with
    | .error e => .error e
    | .ok b =>
      match mapE f rest with
      | .error e => .error e
      | .ok bs => .ok (b :: bs)

/-- `fill_cert_key_signers` (lines 268-313).  The loop body only reads the
immutable `distributed_cert` field of the other pairs, so the sequence of
in-place updates is a map over the original list. -/
def fill_cert_key_signers (env : CryptoEnv) (s : ClusterCryptoObjectsInternal) :
    Except CertSignError ClusterCryptoObjectsInternal :=
  match mapE (fillOneCertSigner env s.cert_key_pairs) s.cert_key_pairs with
  | .error e => .error e
  | .ok pairs => .ok { s with cert_key_pairs := pairs }

/-- The standalone private-key scan of `fill_jwt_signers` (lines 336-348):
first registry record whose public half verifies the token. -/
def findFirstKey (env : CryptoEnv) (tok : Jwt) :
    List (PrivateKey × DistributedPrivateKey) → Option PrivateKey
  | [] => none
  | (_, dk) :: rest =>
    if env.verifyJwt (env.pubOf dk.key) tok then some dk.key else findFirstKey env tok rest

/-- The cert-key-pair scan of `fill_jwt_signers` (lines 353-366): first pair
whose private half exists and verifies the token, by index. -/
def findJwtCertSigner (env : CryptoEnv) (tok : Jwt) :
    Nat → List CertKeyPair → Option Nat
  | _, [] => none
  | i, p :: rest =>
    match p.distributed_private_key with
    | some dk =>
        if env.verifyJwt (env.pubOf dk.key) tok then some i
        else findJwtCertSigner env tok (i + 1) rest
    | none => findJwtCertSigner env tok (i + 1) rest

/-- One iteration of `fill_jwt_signers` for a single jwt (lines 326-369):
when a cached last signer exists only that signer is tried (the registry
scan sits in the `else` of the cache check); without a cache the standalone
registry is scanned and the cache set on success; if the signer is still
unknown the cert-key pairs are scanned.  Returns the resolved signer and the
new cache. -/
def jwtStep (env : CryptoEnv) (pairs : List CertKeyPair)
    (privKeys : List (PrivateKey × DistributedPrivateKey))
    (lastSigner : Option PrivateKey) (dj : DistributedJwt) :
    JwtSigner × Option PrivateKey :=
  let stage12 : JwtSigner × Option PrivateKey :=
    match lastSigner with
    | some ls =>
        if env.verifyJwt (env.pubOf ls) dj.jwt then (.PrivateKey ls, some ls)
        else (.Unknown, some ls)
    | none =>
        match findFirstKey env dj.jwt privKeys with
        | some k => (.PrivateKey k, some k)
        | none => (.Unknown, none)
  match stage12 with
  | (.Unknown, cache) =>
      match findJwtCertSigner env dj.jwt 0 pairs with
      | some i => (.CertKeyPair i, cache)
      | none => (.Unknown, cache)
  | r => r

/-- The jwt loop of `fill_jwt_signers` (lines 325-376), threading the
last-signer cache and aborting as soon as a jwt resolves to no signer. -/
def fillJwtsGo (env : CryptoEnv) (pairs : List CertKeyPair)
    (privKeys : List (PrivateKey × DistributedPrivateKey)) :
    Option PrivateKey → List (Jwt × DistributedJwt) →
    Except String (List (Jwt × DistributedJwt))
  | _, [] => .ok []
  | cache, (k, dj) :: rest =>
    match jwtStep env pairs privKeys cache dj with
    | (.Unknown, _) => .error "JWT has unknown signer"
    | (sgn, cache') =>
      match fillJwtsGo env pairs privKeys cache' rest with
      | .error e => .error e
      | .ok rest' => .ok ((k, { dj with signer := sgn }) :: rest')

/-- `fill_jwt_signers` (lines 318-377). -/
def fill_jwt_signers (env : CryptoEnv) (s : ClusterCryptoObjectsInternal) :
    Except String ClusterCryptoObjectsInternal :=
  match fillJwtsGo env s.cert_key_pairs s.private_keys none s.jwts with
  | .error e => .error e
  | .ok jwts => .ok { s with jwts := jwts }

/-- Whether the allowlist suppresses the missing-private-key fault
(lines 454-458): the subject is a literal entry of
`KNOWN_MISSING_PRIVATE_KEY_CERTS`, or some entry, read as a regex pattern,
matches the subject. -/
def knownMissingMatches (env : CryptoEnv) (subject : String) : Bool :=
  env.knownMissingPrivateKeyCerts.contains subject
    || env.knownMissingPrivateKeyCerts.any (fun pat => env.regexMatch pat subject)

/-- Aborts of `pair_certs_and_keys`: the internal-consistency panic
"Private key not found" (line 452) and the
not-in-`KNOWN_MISSING_PRIVATE_KEY_CERTS` panic, which names the cert's
subject and locations (lines 463-467). -/
inductive PairError where
  | privateKeyNotFound
  | missingKeyNotAllowed (subject : String) (locs : Locations)
deriving DecidableEq

/-- The fresh pair built at the top of each `pair_certs_and_keys` iteration
(lines 435-442). -/
def freshPair (dc : DistributedCert) : CertKeyPair :=
  { distributed_private_key := none, distributed_cert := dc, signer := none,
    signees := [], associated_public_key := none, regenerated := false }

/-- One iteration of `pair_certs_and_keys` (lines 434-471): look the cert's
subject public key up in the public-to-private index, then the indexed
private key up in the private-key registry (absence there is the
internal-consistency panic); attach and remove the key on success; with no
index entry, consult the allowlist or abort naming subject and locations.
Returns the new pair and the remaining private-key registry. -/
def processCert (env : CryptoEnv) (privKeys : List (PrivateKey × DistributedPrivateKey))
    (p2p : List (PublicKey × PrivateKey)) (dc : DistributedCert) :
    Except PairError (CertKeyPair × List (PrivateKey × DistributedPrivateKey)) :=
  let subject_public_key := dc.certificate.public_key
  match lookupA p2p subject_public_key with
  | some private_key =>
    match lookupA privKeys private_key with
    | some distributed_private_key =>
        .ok ({ freshPair dc with distributed_private_key := some distributed_private_key },
             removeA privKeys private_key)
    | none => .error .privateKeyNotFound
  | none =>
    if knownMissingMatches env dc.certificate.subject then
      .ok (freshPair dc, privKeys)
    else
      .error (.missingKeyNotAllowed dc.certificate.subject dc.locations)

/-- The cert loop of `pair_certs_and_keys`, threading the shrinking
private-key registry and collecting the new pairs in iteration order. -/
def pairLoop (env : CryptoEnv) (p2p : List (PublicKey × PrivateKey)) :
    List (PrivateKey × DistributedPrivateKey) → List (Certificate × DistributedCert) →
    Except PairError (List CertKeyPair × List (PrivateKey × DistributedPrivateKey))
  | pks, [] => .ok ([], pks)
  | pks, (_, dc) :: rest =>
    match processCert env pks p2p dc with
    | .error e => .error e
    | .ok (pair, pks') =>
      match pairLoop env p2p pks' rest with
      | .error e => .error e
      | .ok (pairs, pks'') => .ok (pair :: pairs, pks'')

/-- `pair_certs_and_keys` (lines 432-477): every iterated cert key is pushed
onto the removal list, so on success the cert registry is drained and the
new pairs are appended to `cert_key_pairs`. -/
def pair_certs_and_keys (env : CryptoEnv) (s : ClusterCryptoObjectsInternal) :
    Except PairError ClusterCryptoObjectsInternal :=
  match pairLoop env s.public_to_private s.private_keys s.certs with
  | .error e => .error e
  | .ok (pairs, pks) =>
    .ok { s with certs := [], private_keys := pks,
                 cert_key_pairs := s.cert_key_pairs ++ pairs }

/-- The cert-key-pair part of one `fill_signees` iteration (lines 384-395):
collect, in order, every pair index `j` whose signer points at a pair whose
cert content equals `cert`.  `n` is the index of the first element of the
remaining list; `pairs` is the full list the signer indices point into. -/
def certSigneesGo (pairs : List CertKeyPair) (cert : X509) :
    Nat → List CertKeyPair → List Signee
  | _, [] => []
  | j, q :: rest =>
    let tail := certSigneesGo pairs cert (j + 1) rest
    match q.signer with
    | none => tail
    | some k =>
      match pairs[k]? with
      | none => tail
      | some sp =>
        if sp.distributed_cert.certificate.original = cert then
          .CertKeyPair j :: tail
        else tail

/-- The jwt part of one `fill_signees` iteration for the pair at index `i`
(lines 396-406): panic on an unknown signer, collect the jwts whose signer
is this very pair. -/
def jwtSigneesOfPair (i : Nat) : List (Jwt × DistributedJwt) → Except String (List Signee)
  | [] => .ok []
  | (k, dj) :: rest =>
    match dj.signer with
    | .Unknown => .error "JWT has unknown signer"
    | .CertKeyPair m =>
      match jwtSigneesOfPair i rest with
      | .error e => .error e
      | .ok l => .ok (if m = i then .Jwt k :: l else l)
    | .PrivateKey _ => jwtSigneesOfPair i rest

/-- The jwt scan of the standalone-key part of `fill_signees`
(lines 412-425): panic on an unknown signer, collect the jwts whose signer
is the private key with content `key`. -/
def jwtSigneesOfKey (key : PrivateKey) : List (Jwt × DistributedJwt) → Except String (List Signee)
  | [] => .ok []
  | (k, dj) :: rest =>
    match dj.signer with
    | .Unknown => .error "JWT has unknown signer"
    | .CertKeyPair _ => jwtSigneesOfKey key rest
    | .PrivateKey k' =>
      match jwtSigneesOfKey key rest with
      | .error e => .error e
      | .ok l => .ok (if k' = key then .Jwt k :: l else l)

/-- The first loop of `fill_signees` (lines 382-409): each pair's signees
list is replaced by the cert-key-pair signees followed by the jwt signees.
`n` is the index of the first element of the remaining list. -/
def fillPairSignees (pairs : List CertKeyPair) (jwts : List (Jwt × DistributedJwt)) :
    Nat → List CertKeyPair → Except String (List CertKeyPair)
  | _, [] => .ok []
  | i, p :: rest =>
    match jwtSigneesOfPair i jwts with
    | .error e => .error e
    | .ok jwtPart =>
      match fillPairSignees pairs jwts (i + 1) rest with
      | .error e => .error e
      | .ok rest' =>
        .ok ({ p with signees :=
                certSigneesGo pairs p.distributed_cert.certificate.original 0 pairs
                  ++ jwtPart } :: rest')

/-- The second loop of `fill_signees` (lines 411-426): each standalone
private key appends the jwts it signed to its signees list. -/
def fillKeySignees (jwts : List (Jwt × DistributedJwt)) :
    List (PrivateKey × DistributedPrivateKey) →
    Except String (List (PrivateKey × DistributedPrivateKey))
  | [] => .ok []
  | (k, dpk) :: rest =>
    match jwtSigneesOfKey dpk.key jwts with
    | .error e => .error e
    | .ok new =>
      match fillKeySignees jwts rest with
      | .error e => .error e
      | .ok rest' => .ok ((k, { dpk with signees := dpk.signees ++ new }) :: rest')

/-- `fill_signees` (lines 381-427). -/
def fill_signees (s : ClusterCryptoObjectsInternal) :
    Except String ClusterCryptoObjectsInternal :=
  match fillPairSignees s.cert_key_pairs s.jwts 0 s.cert_key_pairs with
  | .error e => .error e
  | .ok pairs =>
    match fillKeySignees s.jwts s.private_keys with
    | .error e => .error e
    | .ok pks => .ok { s with cert_key_pairs := pairs, private_keys := pks }

/-- One signee check of `assert_regeneration` (lines 208-227): the record a
signee references must carry `regenerated = true` (a dangling reference
cannot arise in the source and fails the check here). -/
def assertSignee (s : ClusterCryptoObjectsInternal) : Signee → Bool
  | .CertKeyPair i =>
    match s.cert_key_pairs[i]? with
    | some p => p.regenerated
    | none => false
  | .Jwt j =>
    match lookupA s.jwts j with
    | some dj => dj.regenerated
    | none => false

/-- The per-pair checks of `assert_regeneration` (lines 177-243) for the
pair `p` at index `i`: when a signer is present it must be regenerated, have
a non-empty signees list whose members are all regenerated, and list this
pair among its signees; the pair itself must be regenerated. -/
def assertPair (s : ClusterCryptoObjectsInternal) (i : Nat) (p : CertKeyPair) : Bool :=
  (match p.signer with
   | none => true
   | some si =>
     match s.cert_key_pairs[si]? with
     | none => false
     | some sp =>
       sp.regenerated
         && decide (0 < sp.signees.length)
         && sp.signees.all (assertSignee s)
         && decide (Signee.CertKeyPair i ∈ sp.signees))
    && p.regenerated

/-- The pair loop of `assert_regeneration`, carrying the index of the first
element of the remaining list. -/
def assertPairsFrom (s : ClusterCryptoObjectsInternal) : Nat → List CertKeyPair → Bool
  | _, [] => true
  | i, p :: rest => assertPair s i p && assertPairsFrom s (i + 1) rest

/-- `assert_regeneration` (lines 175-266) as a boolean check: `true` means
every assertion passed, `false` means the run would panic. -/
def assert_regeneration (s : ClusterCryptoObjectsInternal) : Bool :=
  assertPairsFrom s 0 s.cert_key_pairs
    && s.public_keys.all (fun kv => kv.2.regenerated)
    && s.jwts.all (fun kv => kv.2.regenerated)
    && s.private_keys.all (fun kv => kv.2.regenerated)
    && decide (s.certs.length = 0)

/-- Modelled from the spec: the recursive per-record `regenerate` methods of
`CertKeyPair` and `DistributedPrivateKey` live in the `cert_key_pair` and
`distributed_private_key` modules, which are not part of this source
fragment; the spec only requires a key-drawing mutation that never fails.
The whole pre-assertion mutation of `regenerate_crypto` (lines 159-169) is
therefore an arbitrary state transformer `regen`.  `regenerate_crypto`
(lines 158-173) runs it and then `assert_regeneration`. -/
def regenerate_crypto (regen : ClusterCryptoObjectsInternal → ClusterCryptoObjectsInternal)
    (s : ClusterCryptoObjectsInternal) : Except String ClusterCryptoObjectsInternal :=
  let s' := regen s
  if assert_regeneration s' then .ok s' else .error "regeneration assertion failed"

/-- The empty aggregate state (`ClusterCryptoObjectsInternal::new`). -/
def emptyState : ClusterCryptoObjectsInternal :=
  { private_keys := [], public_keys := [], certs := [], jwts := [],
    public_to_private := [], cert_key_pairs := [] }

/-- A concrete self-signed certificate object. -/
def x0W : X509 := { subject := "cn=root", issuer := "cn=root", raw := 0 }

/-- A concrete certificate object issued by `x0W`'s subject. -/
def x1W : X509 := { subject := "cn=child", issuer := "cn=root", raw := 1 }

/-- A concrete `DistributedCert` around a certificate object. -/
def dcertW (x : X509) : DistributedCert :=
  { certificate := { original := x, public_key := 0, subject := x.subject },
    locations := ⟨[0]⟩ }

/-- A concrete keyless cert-key pair around a certificate object. -/
def pairW (x : X509) : CertKeyPair := freshPair (dcertW x)

/-- A concrete environment: the child certificate verifies against every
candidate, everything else fails. -/
def envC2 : CryptoEnv :=
  { verifyCert := fun child _ => if child = x1W then .ok else .signatureFailed,
    opensslIsSigned := fun _ _ => false,
    verifyJwt := fun _ _ => false,
    pubOf := fun k => k,
    knownMissingPrivateKeyCerts := [],
    regexMatch := fun _ _ => false }

/-- A concrete state with a self-signed root pair and a child pair. -/
def sC2 : ClusterCryptoObjectsInternal :=
  { emptyState with cert_key_pairs := [pairW x0W, pairW x1W] }

/-- The state `sC2` after certificate signer resolution: both candidates
verify the child, so the last one (the child itself, index 1) wins. -/
def sC2' : ClusterCryptoObjectsInternal :=
  { emptyState with cert_key_pairs := [pairW x0W, { pairW x1W with signer := some 1 }] }

/-- A concrete environment in which no certificate verifies anything. -/
def envC8 : CryptoEnv :=
  { verifyCert := fun _ _ => .signatureFailed,
    opensslIsSigned := fun _ _ => false,
    verifyJwt := fun _ _ => false,
    pubOf := fun k => k,
    knownMissingPrivateKeyCerts := [],
    regexMatch := fun _ _ => false }

/-- A concrete state holding only the (non-self-signed) child pair. -/
def sC8 : ClusterCryptoObjectsInternal :=
  { emptyState with cert_key_pairs := [pairW x1W] }

/-- A concrete environment whose allowlist holds the single literal subject
`cn=known` and whose regex engine matches nothing. -/
def envC5 : CryptoEnv :=
  { verifyCert := fun _ _ => .signatureFailed,
    opensslIsSigned := fun _ _ => false,
    verifyJwt := fun _ _ => false,
    pubOf := fun k => k,
    knownMissingPrivateKeyCerts := ["cn=known"],
    regexMatch := fun _ _ => false }

/-- A concrete cert whose subject is on the allowlist of `envC5`. -/
def dcKnown : DistributedCert :=
  { certificate := { original := x0W, public_key := 7, subject := "cn=known" },
    locations := ⟨[1]⟩ }

/-- A concrete cert whose subject is not on the allowlist of `envC5`. -/
def dcUnknown : DistributedCert :=
  { certificate := { original := x0W, public_key := 7, subject := "cn=other" },
    locations := ⟨[2]⟩ }

/-- A concrete standalone private-key record with content key 5. -/
def dkW : DistributedPrivateKey :=
  { locations := ⟨[4]⟩, key := 5, signees := [],
    associated_distributed_public_key := none, regenerated := false }

/-- A concrete state with one cert whose subject public key 0 is indexed to
the private key 5 held in the registry. -/
def sC4 : ClusterCryptoObjectsInternal :=
  { emptyState with
    certs := [((dcertW x1W).certificate, dcertW x1W)],
    private_keys := [(5, dkW)],
    public_to_private := [(0, 5)] }

/-- The state `sC4` after pairing: the cert registry is drained, the private
key moved into the single new pair. -/
def sC4' : ClusterCryptoObjectsInternal :=
  { emptyState with
    public_to_private := [(0, 5)],
    cert_key_pairs := [{ freshPair (dcertW x1W) with distributed_private_key := some dkW }] }

/-- A concrete state with two distinct certs sharing subject public key 0,
which the index maps to the single registry key 5. -/
def sC9 : ClusterCryptoObjectsInternal :=
  { emptyState with
    certs := [((dcertW x0W).certificate, dcertW x0W), ((dcertW x1W).certificate, dcertW x1W)],
    private_keys := [(5, dkW)],
    public_to_private := [(0, 5)] }

/-- A concrete fully regenerated state: one root pair and one standalone
private key, both regenerated, no pending certs. -/
def sC3 : ClusterCryptoObjectsInternal :=
  { emptyState with
    cert_key_pairs := [{ pairW x0W with regenerated := true }],
    private_keys := [(5, { dkW with regenerated := true })] }

/-- A concrete jwt record signed by the cert-key pair at index 0. -/
def dj7 : DistributedJwt :=
  { jwt := 7, locations := ⟨[0]⟩, signer := .CertKeyPair 0, regenerated := false }

/-- A concrete jwt record signed by the standalone private key 3. -/
def dj8 : DistributedJwt :=
  { jwt := 8, locations := ⟨[0]⟩, signer := .PrivateKey 3, regenerated := false }

/-- A concrete standalone private-key record with content key 3 and no
signees. -/
def dk3 : DistributedPrivateKey :=
  { locations := ⟨[0]⟩, key := 3, signees := [],
    associated_distributed_public_key := none, regenerated := false }

/-- A concrete state for signee backfill: one pair, two resolved jwts, one
standalone key. -/
def sC6 : ClusterCryptoObjectsInternal :=
  { emptyState with
    cert_key_pairs := [pairW x0W],
    jwts := [(7, dj7), (8, dj8)],
    private_keys := [(3, dk3)] }

/-- The state `sC6` after signee backfill. -/
def sC6' : ClusterCryptoObjectsInternal :=
  { sC6 with
    cert_key_pairs := [{ pairW x0W with signees := [.Jwt 7] }],
    private_keys := [(3, { dk3 with signees := [.Jwt 8] })] }

/-- A concrete jwt record whose signer is still unknown. -/
def djU : DistributedJwt :=
  { jwt := 9, locations := ⟨[0]⟩, signer := .Unknown, regenerated := false }

/-- A concrete state holding only an unresolved jwt: no pairs, no standalone
keys. -/
def sC10 : ClusterCryptoObjectsInternal :=
  { emptyState with jwts := [(9, djU)] }

/-- A concrete state holding an unresolved jwt and one cert-key pair. -/
def sC10b : ClusterCryptoObjectsInternal :=
  { emptyState with cert_key_pairs := [pairW x0W], jwts := [(9, djU)] }

/-- A concrete environment for jwt signing: the public half of a key `k` is
`k + 100`; public key 110 verifies jwt 1 and public key 111 verifies
jwt 2. -/
def envC1 : CryptoEnv :=
  { verifyCert := fun _ _ => .signatureFailed,
    opensslIsSigned := fun _ _ => false,
    verifyJwt := fun pub tok => decide ((pub = 110 ∧ tok = 1) ∨ (pub = 111 ∧ tok = 2)),
    pubOf := fun k => k + 100,
    knownMissingPrivateKeyCerts := [],
    regexMatch := fun _ _ => false }

/-- A concrete standalone private-key record with content key 10 (it signs
jwt 1 under `envC1`). -/
def dkA : DistributedPrivateKey :=
  { locations := ⟨[0]⟩, key := 10, signees := [],
    associated_distributed_public_key := none, regenerated := false }

/-- A concrete standalone private-key record with content key 11 (it signs
jwt 2 under `envC1`). -/
def dkB : DistributedPrivateKey :=
  { locations := ⟨[0]⟩, key := 11, signees := [],
    associated_distributed_public_key := none, regenerated := false }

/-- A concrete unresolved jwt record with content key 1. -/
def djA : DistributedJwt :=
  { jwt := 1, locations := ⟨[0]⟩, signer := .Unknown, regenerated := false }

/-- A concrete unresolved jwt record with content key 2. -/
def djB : DistributedJwt :=
  { jwt := 2, locations := ⟨[0]⟩, signer := .Unknown, regenerated := false }

/-- A concrete state: two jwts, each signed by a different standalone key,
no cert-key pairs. -/
def sC1 : ClusterCryptoObjectsInternal :=
  { emptyState with
    private_keys := [(10, dkA), (11, dkB)],
    jwts := [(1, djA), (2, djB)] }

/-! ### Lemmas and theorems -/

theorem Locations.mem_insert_self (L : Locations) (l : Location) : l ∈ (L.insert l).locs := by
  unfold Locations.insert
  split
  · assumption
  · simp

theorem Locations.insert_of_mem {L : Locations} {l : Location} (h : l ∈ L.locs) :
    L.insert l = L := by
  unfold Locations.insert
  simp [h]

theorem Locations.insert_insert_self (L : Locations) (l : Location) :
    (L.insert l).insert l = L.insert l :=
  Locations.insert_of_mem (Locations.mem_insert_self L l)

theorem lookupA_append_self {κ ρ : Type} [DecidableEq κ] {m : List (κ × ρ)} {k : κ} (v : ρ)
    (h : lookupA m k = none) : lookupA (m ++ [(k, v)]) k = some v := by
  induction m with
  | nil => simp [lookupA]
  | cons kv rest ih =>
    obtain ⟨k', v'⟩ := kv
    by_cases hk : k' = k
    · simp [lookupA, hk] at h
    · simp only [lookupA, hk, if_neg, List.cons_append] at h ⊢
      exact ih h

theorem lookupA_append_ne {κ ρ : Type} [DecidableEq κ] {m : List (κ × ρ)} {k k' : κ} (v : ρ)
    (h : k' ≠ k) : lookupA (m ++ [(k, v)]) k' = lookupA m k' := by
  induction m with
  | nil => simp [lookupA, Ne.symm h]
  | cons kv rest ih =>
    obtain ⟨k'', v''⟩ := kv
    by_cases hk : k'' = k'
    · simp [lookupA, hk]
    · simp only [List.cons_append, lookupA, hk, if_neg]
      exact ih

theorem modifyA_append_self {κ ρ : Type} [DecidableEq κ] {m : List (κ × ρ)} {k : κ} (v : ρ)
    (f : ρ → ρ) (h : lookupA m k = none) :
    modifyA (m ++ [(k, v)]) k f = m ++ [(k, f v)] := by
  induction m with
  | nil => simp [modifyA]
  | cons kv rest ih =>
    obtain ⟨k', v'⟩ := kv
    by_cases hk : k' = k
    · simp [lookupA, hk] at h
    · simp only [lookupA, if_neg hk] at h
      simp only [List.cons_append, modifyA, if_neg hk]
      exact congrArg (fun t => (k', v') :: t) (ih h)

theorem lookupA_modifyA_self {κ ρ : Type} [DecidableEq κ] (m : List (κ × ρ)) (k : κ)
    (f : ρ → ρ) : lookupA (modifyA m k f) k = (lookupA m k).map f := by
  induction m with
  | nil => simp [lookupA, modifyA]
  | cons kv rest ih =>
    obtain ⟨k', v'⟩ := kv
    by_cases hk : k' = k
    · simp [lookupA, modifyA, hk]
    · simp [lookupA, modifyA, hk, ih]

theorem lookupA_modifyA_ne {κ ρ : Type} [DecidableEq κ] {m : List (κ × ρ)} {k k' : κ}
    (f : ρ → ρ) (h : k' ≠ k) : lookupA (modifyA m k f) k' = lookupA m k' := by
  induction m with
  | nil => simp [modifyA]
  | cons kv rest ih =>
    obtain ⟨k'', v''⟩ := kv
    by_cases hk : k'' = k
    · simp [lookupA, modifyA, hk, Ne.symm h]
    · by_cases hk' : k'' = k'
      · subst hk'
        simp [lookupA, modifyA, hk]
      · simp [lookupA, modifyA, hk, hk', ih]

theorem modifyA_modifyA {κ ρ : Type} [DecidableEq κ] (m : List (κ × ρ)) (k : κ)
    (f g : ρ → ρ) : modifyA (modifyA m k f) k g = modifyA m k (fun r => g (f r)) := by
  induction m with
  | nil => simp [modifyA]
  | cons kv rest ih =>
    obtain ⟨k', v'⟩ := kv
    by_cases hk : k' = k
    · simp [modifyA, hk]
    · simp [modifyA, hk, ih]

theorem modifyA_congr {κ ρ : Type} [DecidableEq κ] (m : List (κ × ρ)) (k : κ)
    {f g : ρ → ρ} (h : ∀ x, f x = g x) : modifyA m k f = modifyA m k g := by
  induction m with
  | nil => simp [modifyA]
  | cons kv rest ih =>
    obtain ⟨k', v'⟩ := kv
    by_cases hk : k' = k
    · simp [modifyA, hk, h]
    · simp [modifyA, hk, ih]

theorem lookupA_removeA_self {κ ρ : Type} [DecidableEq κ] (m : List (κ × ρ)) (k : κ) :
    lookupA (removeA m k) k = none := by
  induction m with
  | nil => simp [removeA, lookupA]
  | cons kv rest ih =>
    obtain ⟨k', v'⟩ := kv
    by_cases hk : k' = k
    · simpa [removeA, lookupA, hk] using ih
    · simpa [removeA, lookupA, hk] using ih

theorem lookupA_removeA_none {κ ρ : Type} [DecidableEq κ] {m : List (κ × ρ)} {k k' : κ}
    (h : lookupA m k' = none) : lookupA (removeA m k) k' = none := by
  induction m with
  | nil => simp [removeA, lookupA]
  | cons kv rest ih =>
    obtain ⟨k'', v''⟩ := kv
    by_cases hk' : k'' = k'
    · simp [lookupA, hk'] at h
    · by_cases hk : k'' = k
      · simp only [lookupA, hk', if_neg] at h
        simpa [removeA, lookupA, hk] using ih h
      · simp only [lookupA, hk', if_neg] at h
        simpa [removeA, lookupA, hk, hk'] using ih h

theorem lookupA_upsertA_absent {κ ρ : Type} [DecidableEq κ] {m : List (κ × ρ)} {k : κ}
    (fresh : ρ) (touch : ρ → ρ) (h : lookupA m k = none) :
    lookupA (upsertA m k fresh touch) k = some fresh := by
  unfold upsertA
  rw [h]
  exact lookupA_append_self fresh h

theorem lookupA_upsertA_present {κ ρ : Type} [DecidableEq κ] {m : List (κ × ρ)} {k : κ}
    {r : ρ} (fresh : ρ) (touch : ρ → ρ) (h : lookupA m k = some r) :
    lookupA (upsertA m k fresh touch) k = some (touch r) := by
  unfold upsertA
  rw [h, lookupA_modifyA_self, h, Option.map_some']

theorem lookupA_upsertA_ne {κ ρ : Type} [DecidableEq κ] {m : List (κ × ρ)} {k k' : κ}
    (fresh : ρ) (touch : ρ → ρ) (h : k' ≠ k) :
    lookupA (upsertA m k fresh touch) k' = lookupA m k' := by
  unfold upsertA
  cases hm : lookupA m k with
  | none => exact lookupA_append_ne fresh h
  | some r => exact lookupA_modifyA_ne touch h

theorem modifyA_lookup_fix {κ ρ : Type} [DecidableEq κ] {m : List (κ × ρ)} {k : κ} {r : ρ}
    {touch : ρ → ρ} (h : lookupA m k = some r) (hfix : touch r = r) :
    modifyA m k touch = m := by
  induction m with
  | nil => simp [lookupA] at h
  | cons kv rest ih =>
    obtain ⟨k', v'⟩ := kv
    by_cases hk : k' = k
    · simp only [lookupA, if_pos hk, Option.some.injEq] at h
      subst h
      simp [modifyA, hk, hfix]
    · simp only [lookupA, if_neg hk] at h
      simp only [modifyA, if_neg hk]
      exact congrArg (fun t => (k', v') :: t) (ih h)

theorem upsertA_of_present {κ ρ : Type} [DecidableEq κ] {m : List (κ × ρ)} {k : κ} {r : ρ}
    (fresh : ρ) (touch : ρ → ρ) (h : lookupA m k = some r) :
    upsertA m k fresh touch = modifyA m k touch := by
  unfold upsertA
  rw [h]

theorem lookupA_insertA_self {κ ρ : Type} [DecidableEq κ] (m : List (κ × ρ)) (k : κ) (v : ρ) :
    lookupA (insertA m k v) k = some v := by
  unfold insertA
  cases hm : lookupA m k with
  | none => exact lookupA_append_self v hm
  | some r => rw [lookupA_modifyA_self, hm, Option.map_some']

theorem insertA_of_present {κ ρ : Type} [DecidableEq κ] {m : List (κ × ρ)} {k : κ} {r : ρ}
    (v : ρ) (h : lookupA m k = some r) :
    insertA m k v = modifyA m k (fun _ => v) := by
  unfold insertA
  rw [h]

theorem upsertA_upsertA {κ ρ : Type} [DecidableEq κ] (m : List (κ × ρ)) (k : κ)
    (fresh : ρ) (touch : ρ → ρ) (hfresh : touch fresh = fresh)
    (htouch : ∀ x, touch (touch x) = touch x) :
    upsertA (upsertA m k fresh touch) k fresh touch = upsertA m k fresh touch := by
  cases hm : lookupA m k with
  | none =>
    have h1 := lookupA_upsertA_absent (m := m) fresh touch hm
    rw [upsertA_of_present fresh touch h1]
    exact modifyA_lookup_fix h1 hfresh
  | some r =>
    have h1 := lookupA_upsertA_present fresh touch hm
    rw [upsertA_of_present fresh touch h1]
    exact modifyA_lookup_fix h1 (htouch r)

theorem insertA_insertA {κ ρ : Type} [DecidableEq κ] (m : List (κ × ρ)) (k : κ) (v : ρ) :
    insertA (insertA m k v) k v = insertA m k v := by
  have h1 := lookupA_insertA_self m k v
  rw [insertA_of_present v h1]
  exact modifyA_lookup_fix h1 rfl

theorem registerOne_idem (s : ClusterCryptoObjectsInternal) (d : DiscoveredCryptoObect) :
    registerOne (registerOne s d) d = registerOne s d := by
  obtain ⟨loc, co⟩ := d
  have hins : (⟨[loc]⟩ : Locations).insert loc = ⟨[loc]⟩ :=
    Locations.insert_of_mem (by simp)
  obtain ⟨pk, pubk, certs, jwts, p2p, pairs⟩ := s
  cases co with
  | PrivateKey priv pub =>
    simp only [registerOne, ClusterCryptoObjectsInternal.mk.injEq, and_true, true_and]
    constructor
    · refine upsertA_upsertA _ _ _ _ ?_ ?_
      · simp [hins]
      · rintro ⟨xl, xk, xs, xa, xr⟩
        simp [Locations.insert_insert_self]
    · exact insertA_insertA _ _ _
  | PublicKey pub =>
    simp only [registerOne, ClusterCryptoObjectsInternal.mk.injEq, and_true, true_and]
    refine upsertA_upsertA _ _ _ _ ?_ ?_
    · simp [hins]
    · rintro ⟨xl, xk, xr⟩
      simp [Locations.insert_insert_self]
  | Certificate cert =>
    simp only [registerOne, ClusterCryptoObjectsInternal.mk.injEq, and_true, true_and]
    refine upsertA_upsertA _ _ _ _ ?_ ?_
    · simp [hins]
    · rintro ⟨xc, xl⟩
      simp [Locations.insert_insert_self]
  | Jwt j =>
    simp only [registerOne, ClusterCryptoObjectsInternal.mk.injEq, and_true, true_and]
    refine upsertA_upsertA _ _ _ _ ?_ ?_
    · simp [hins]
    · rintro ⟨xj, xl, xs, xr⟩
      simp [Locations.insert_insert_self]

/-- C7.  `register_discovered_crypto_objects` is idempotent per event: for
every registry, processing an `{object, location}` event with the content
key absent creates a record with a one-element Locations set; with the key
present only the location is inserted into the existing record's Locations
(set semantics, no other field mutated) and other keys are untouched; and
ingesting the same event twice yields the same state as ingesting it once. -/
theorem register_discovered_upsert_and_idempotent
    (s : ClusterCryptoObjectsInternal) (d : DiscoveredCryptoObect) :
    (∀ priv pub, d.crypto_object = .PrivateKey priv pub →
      (lookupA s.private_keys priv = none →
        lookupA (registerOne s d).private_keys priv =
          some { locations := ⟨[d.location]⟩, key := priv, signees := [],
                 associated_distributed_public_key := none, regenerated := false }) ∧
      (∀ r, lookupA s.private_keys priv = some r →
        lookupA (registerOne s d).private_keys priv =
          some { r with locations := r.locations.insert d.location }) ∧
      (∀ k, k ≠ priv → lookupA (registerOne s d).private_keys k = lookupA s.private_keys k)) ∧
    (∀ pub, d.crypto_object = .PublicKey pub →
      (lookupA s.public_keys pub = none →
        lookupA (registerOne s d).public_keys pub =
          some { locations := ⟨[d.location]⟩, key := pub, regenerated := false }) ∧
      (∀ r, lookupA s.public_keys pub = some r →
        lookupA (registerOne s d).public_keys pub =
          some { r with locations := r.locations.insert d.location }) ∧
      (∀ k, k ≠ pub → lookupA (registerOne s d).public_keys k = lookupA s.public_keys k)) ∧
    (∀ cert, d.crypto_object = .Certificate cert →
      (lookupA s.certs cert = none →
        lookupA (registerOne s d).certs cert =
          some { certificate := cert, locations := ⟨[d.location]⟩ }) ∧
      (∀ r, lookupA s.certs cert = some r →
        lookupA (registerOne s d).certs cert =
          some { r with locations := r.locations.insert d.location }) ∧
      (∀ k, k ≠ cert → lookupA (registerOne s d).certs k = lookupA s.certs k)) ∧
    (∀ j, d.crypto_object = .Jwt j →
      (lookupA s.jwts j = none →
        lookupA (registerOne s d).jwts j =
          some { jwt := j, locations := ⟨[d.location]⟩, signer := .Unknown,
                 regenerated := false }) ∧
      (∀ r, lookupA s.jwts j = some r →
        lookupA (registerOne s d).jwts j =
          some { r with locations := r.locations.insert d.location }) ∧
      (∀ k, k ≠ j → lookupA (registerOne s d).jwts k = lookupA s.jwts k)) ∧
    register_discovered_crypto_objects s [d, d] = register_discovered_crypto_objects s [d] := by
  refine ⟨?_, ?_, ?_, ?_, ?_⟩
  · intro priv pub h
    obtain ⟨loc, co⟩ := d
    cases h
    refine ⟨?_, ?_, ?_⟩
    · intro habs
      simpa only [registerOne] using lookupA_upsertA_absent _ _ habs
    · intro r hpres
      simpa only [registerOne] using lookupA_upsertA_present _ _ hpres
    · intro k hk
      simpa only [registerOne] using lookupA_upsertA_ne _ _ hk
  · intro pub h
    obtain ⟨loc, co⟩ := d
    cases h
    refine ⟨?_, ?_, ?_⟩
    · intro habs
      simpa only [registerOne] using lookupA_upsertA_absent _ _ habs
    · intro r hpres
      simpa only [registerOne] using lookupA_upsertA_present _ _ hpres
    · intro k hk
      simpa only [registerOne] using lookupA_upsertA_ne _ _ hk
  · intro cert h
    obtain ⟨loc, co⟩ := d
    cases h
    refine ⟨?_, ?_, ?_⟩
    · intro habs
      simpa only [registerOne] using lookupA_upsertA_absent _ _ habs
    · intro r hpres
      simpa only [registerOne] using lookupA_upsertA_present _ _ hpres
    · intro k hk
      simpa only [registerOne] using lookupA_upsertA_ne _ _ hk
  · intro j h
    obtain ⟨loc, co⟩ := d
    cases h
    refine ⟨?_, ?_, ?_⟩
    · intro habs
      simpa only [registerOne] using lookupA_upsertA_absent _ _ habs
    · intro r hpres
      simpa only [registerOne] using lookupA_upsertA_present _ _ hpres
    · intro k hk
      simpa only [registerOne] using lookupA_upsertA_ne _ _ hk
  · simp only [register_discovered_crypto_objects, List.foldl]
    exact registerOne_idem s d

/-- Witness for C7 at a concrete certificate event against the empty
registry. -/
theorem register_discovered_upsert_witness :
    lookupA (registerOne emptyState { location := 3, crypto_object := .Certificate (dcertW x0W).certificate }).certs
        (dcertW x0W).certificate =
      some { certificate := (dcertW x0W).certificate, locations := ⟨[3]⟩ } ∧
    register_discovered_crypto_objects emptyState
        [{ location := 3, crypto_object := .Certificate (dcertW x0W).certificate },
         { location := 3, crypto_object := .Certificate (dcertW x0W).certificate }] =
      register_discovered_crypto_objects emptyState
        [{ location := 3, crypto_object := .Certificate (dcertW x0W).certificate }] := by
  have h := register_discovered_upsert_and_idempotent emptyState
    { location := 3, crypto_object := .Certificate (dcertW x0W).certificate }
  exact ⟨(h.2.2.1 (dcertW x0W).certificate rfl).1 rfl, h.2.2.2.2⟩

theorem scanCandidates_ok_of_none (env : CryptoEnv) (child : X509) :
    ∀ (l : List CertKeyPair) (n : Nat) (acc r : Option Nat),
    scanCandidates env child n l acc = .ok r →
    (∀ (m : Nat) (q : CertKeyPair), l[m]? = some q →
      candidateVerifies env child q.distributed_cert.certificate.original = false) →
    r = acc := by
  intro l
  induction l with
  | nil =>
    intro n acc r hscan _
    simp only [scanCandidates, Except.ok.injEq] at hscan
    exact hscan.symm
  | cons c rest ih =>
    intro n acc r hscan hall
    have h0 := hall 0 c (by simp)
    cases hv : env.verifyCert child c.distributed_cert.certificate.original with
    | ok => simp [candidateVerifies, hv] at h0
    | signatureFailed =>
      simp only [scanCandidates, hv] at hscan
      exact ih (n + 1) acc r hscan (fun m q hq => hall (m + 1) q (by simpa using hq))
    | unsupported =>
      simp only [candidateVerifies, hv] at h0
      simp only [scanCandidates, hv, h0, if_false] at hscan
      exact ih (n + 1) acc r hscan (fun m q hq => hall (m + 1) q (by simpa using hq))
    | other msg => simp [scanCandidates, hv] at hscan

theorem scanCandidates_ok_last (env : CryptoEnv) (child : X509) :
    ∀ (l : List CertKeyPair) (j : Nat) (n : Nat) (acc r : Option Nat) (cand : CertKeyPair),
    scanCandidates env child n l acc = .ok r →
    l[j]? = some cand →
    candidateVerifies env child cand.distributed_cert.certificate.original = true →
    (∀ (m : Nat) (q : CertKeyPair), j < m → l[m]? = some q →
      candidateVerifies env child q.distributed_cert.certificate.original = false) →
    r = some (n + j) := by
  intro l
  induction l with
  | nil =>
    intro j n acc r cand _ hj
    simp at hj
  | cons c rest ih =>
    intro j n acc r cand hscan hj hver hlast
    cases j with
    | zero =>
      simp only [List.getElem?_cons_zero, Option.some.injEq] at hj
      subst hj
      cases hv : env.verifyCert child c.distributed_cert.certificate.original with
      | ok =>
        simp only [scanCandidates, hv] at hscan
        have := scanCandidates_ok_of_none env child rest (n + 1) (some n) r hscan
          (fun m q hq => hlast (m + 1) q (by omega) (by simpa using hq))
        simpa using this
      | signatureFailed => simp [candidateVerifies, hv] at hver
      | unsupported =>
        simp only [candidateVerifies, hv] at hver
        simp only [scanCandidates, hv, hver, if_true] at hscan
        have := scanCandidates_ok_of_none env child rest (n + 1) (some n) r hscan
          (fun m q hq => hlast (m + 1) q (by omega) (by simpa using hq))
        simpa using this
      | other msg => simp [candidateVerifies, hv] at hver
    | succ j' =>
      simp only [List.getElem?_cons_succ] at hj
      have hlast' : ∀ m q, j' < m → rest[m]? = some q →
          candidateVerifies env child q.distributed_cert.certificate.original = false :=
        fun m q hm hq => hlast (m + 1) q (by omega) (by simpa using hq)
      have harith : ∀ x : Option Nat, x = some (n + 1 + j') → x = some (n + (j' + 1)) := by
        intro x hx
        rw [hx]
        congr 1
        omega
      cases hv : env.verifyCert child c.distributed_cert.certificate.original with
      | ok =>
        simp only [scanCandidates, hv] at hscan
        exact harith r (ih j' (n + 1) (some n) r cand hscan hj hver hlast')
      | signatureFailed =>
        simp only [scanCandidates, hv] at hscan
        exact harith r (ih j' (n + 1) acc r cand hscan hj hver hlast')
      | unsupported =>
        cases ho : env.opensslIsSigned c.distributed_cert.certificate.original child with
        | true =>
          simp only [scanCandidates, hv, ho, if_true] at hscan
          exact harith r (ih j' (n + 1) (some n) r cand hscan hj hver hlast')
        | false =>
          simp only [scanCandidates, hv, ho, if_false] at hscan
          exact harith r (ih j' (n + 1) acc r cand hscan hj hver hlast')
      | other msg => simp [scanCandidates, hv] at hscan

theorem mapE_ok_get {α β ε : Type} (f : α → Except ε β) :
    ∀ (l : List α) (l' : List β), mapE f l = .ok l' →
    ∀ (k : Nat) (a : α), l[k]? = some a → ∃ b, f a = .ok b ∧ l'[k]? = some b := by
  intro l
  induction l with
  | nil =>
    intro l' _ k a hk
    simp at hk
  | cons a0 rest ih =>
    intro l' hmap k a hk
    cases hf : f a0 with
    | error e => simp [mapE, hf] at hmap
    | ok b0 =>
      cases hrest : mapE f rest with
      | error e => simp [mapE, hf, hrest] at hmap
      | ok bs =>
        simp only [mapE, hf, hrest, Except.ok.injEq] at hmap
        subst hmap
        cases k with
        | zero =>
          simp only [List.getElem?_cons_zero, Option.some.injEq] at hk
          subst hk
          exact ⟨b0, hf, by simp⟩
        | succ k' =>
          simp only [List.getElem?_cons_succ] at hk ⊢
          exact ih bs hrest k' a hk

theorem mapE_ok_ne {α β ε : Type} (f : α → Except ε β) :
    ∀ (l : List α) (a : α) (e : ε), a ∈ l → f a = .error e →
    ∀ l', mapE f l ≠ .ok l' := by
  intro l
  induction l with
  | nil =>
    intro a e ha
    simp at ha
  | cons a0 rest ih =>
    intro a e ha hf l' hmap
    rcases List.mem_cons.mp ha with h | h
    · subst h
      simp [mapE, hf] at hmap
    · cases hf0 : f a0 with
      | error e0 => simp [mapE, hf0] at hmap
      | ok b0 =>
        cases hrest : mapE f rest with
        | error e0 => simp [mapE, hf0, hrest] at hmap
        | ok bs => exact ih a e h hf bs hrest

/-- C2.  In `fill_cert_key_signers` the candidate scan for a non-self-signed
pair does not stop at the first verifying candidate: if the candidate at
index `i` verifies and no later candidate does, the recorded signer is `i`
(the last verifying candidate in iteration order wins); and a candidate
accepted on an unsupported-algorithm report was necessarily confirmed by the
out-of-process OpenSSL check. -/
theorem fill_cert_key_signers_last_candidate_wins
    (env : CryptoEnv) (s s' : ClusterCryptoObjectsInternal) (k : Nat) (p : CertKeyPair)
    (i : Nat) (cand : CertKeyPair)
    (hok : fill_cert_key_signers env s = .ok s')
    (hp : s.cert_key_pairs[k]? = some p)
    (hnotself : subject_is_issuer p.distributed_cert.certificate.original = false)
    (hcand : s.cert_key_pairs[i]? = some cand)
    (hver : candidateVerifies env p.distributed_cert.certificate.original
      cand.distributed_cert.certificate.original = true)
    (hlast : ∀ (m : Nat) (q : CertKeyPair), i < m → s.cert_key_pairs[m]? = some q →
      candidateVerifies env p.distributed_cert.certificate.original
        q.distributed_cert.certificate.original = false) :
    s'.cert_key_pairs[k]? = some { p with signer := some i } ∧
    (env.verifyCert p.distributed_cert.certificate.original
        cand.distributed_cert.certificate.original = .unsupported →
      env.opensslIsSigned cand.distributed_cert.certificate.original
        p.distributed_cert.certificate.original = true) := by
  constructor
  · cases hmap : mapE (fillOneCertSigner env s.cert_key_pairs) s.cert_key_pairs with
    | error e => simp [fill_cert_key_signers, hmap] at hok
    | ok pairs =>
      simp only [fill_cert_key_signers, hmap, Except.ok.injEq] at hok
      obtain ⟨b, hfb, hbk⟩ := mapE_ok_get _ _ _ hmap k p hp
      cases hscan : scanCandidates env p.distributed_cert.certificate.original 0
          s.cert_key_pairs none with
      | error e => simp [fillOneCertSigner, hnotself, hscan] at hfb
      | ok r =>
        have hr : r = some (0 + i) :=
          scanCandidates_ok_last env _ s.cert_key_pairs i 0 none r cand hscan hcand hver hlast
        rw [hr] at hscan
        simp only [fillOneCertSigner, hnotself, Bool.false_eq_true, if_false, hscan,
          Except.ok.injEq, Nat.zero_add] at hfb
        subst hok
        simpa only [← hfb] using hbk
  · intro hu
    unfold candidateVerifies at hver
    rw [hu] at hver
    exact hver

/-- Witness for C2: two pairs, every candidate verifies the child at index
1, so the child's recorded signer is the last candidate (index 1). -/
theorem fill_cert_key_signers_last_candidate_wins_witness :
    sC2'.cert_key_pairs[1]? = some { pairW x1W with signer := some 1 } ∧
    (envC2.verifyCert (pairW x1W).distributed_cert.certificate.original
        (pairW x1W).distributed_cert.certificate.original = .unsupported →
      envC2.opensslIsSigned (pairW x1W).distributed_cert.certificate.original
        (pairW x1W).distributed_cert.certificate.original = true) := by
  refine fill_cert_key_signers_last_candidate_wins envC2 sC2 sC2' 1 (pairW x1W) 1 (pairW x1W)
    (by rfl) (by rfl) (by decide) (by rfl) (by decide) ?_
  intro m q hm hq
  rcases m with _ | _ | n
  · omega
  · omega
  · simp [sC2, emptyState] at hq

theorem scanCandidates_all_fail (env : CryptoEnv) (child : X509) :
    ∀ (l : List CertKeyPair) (n : Nat) (acc : Option Nat),
    (∀ (m : Nat) (q : CertKeyPair), l[m]? = some q →
      candidateVerifies env child q.distributed_cert.certificate.original = false ∧
      ∀ msg, env.verifyCert child q.distributed_cert.certificate.original ≠ .other msg) →
    scanCandidates env child n l acc = .ok acc := by
  intro l
  induction l with
  | nil =>
    intro n acc _
    rfl
  | cons c rest ih =>
    intro n acc hall
    obtain ⟨hv0, hno0⟩ := hall 0 c (by simp)
    cases hv : env.verifyCert child c.distributed_cert.certificate.original with
    | ok => simp [candidateVerifies, hv] at hv0
    | signatureFailed =>
      simp only [scanCandidates, hv]
      exact ih (n + 1) acc (fun m q hq => hall (m + 1) q (by simpa using hq))
    | unsupported =>
      simp only [candidateVerifies, hv] at hv0
      simp only [scanCandidates, hv, hv0, if_false]
      exact ih (n + 1) acc (fun m q hq => hall (m + 1) q (by simpa using hq))
    | other msg => exact absurd hv (hno0 msg)

/-- C8.  In `fill_cert_key_signers`: a self-signed pair gets `signer = none`
without any candidate scan (the result does not depend on the environment or
the candidate list); a non-self-signed pair whose scan finds no verifying
candidate (and no unexpected verification error) aborts naming the cert's
locations; and a pair whose iteration aborts makes the whole phase abort. -/
theorem fill_cert_key_signers_self_signed_and_no_signer
    (env : CryptoEnv) (pairs : List CertKeyPair) (p : CertKeyPair) :
    (subject_is_issuer p.distributed_cert.certificate.original = true →
      fillOneCertSigner env pairs p = .ok { p with signer := none }) ∧
    (subject_is_issuer p.distributed_cert.certificate.original = false →
      (∀ (m : Nat) (q : CertKeyPair), pairs[m]? = some q →
        candidateVerifies env p.distributed_cert.certificate.original
          q.distributed_cert.certificate.original = false ∧
        ∀ msg, env.verifyCert p.distributed_cert.certificate.original
          q.distributed_cert.certificate.original ≠ .other msg) →
      fillOneCertSigner env pairs p = .error (.noSigningCert p.distributed_cert.locations)) ∧
    (∀ (s : ClusterCryptoObjectsInternal) (e : CertSignError),
      p ∈ s.cert_key_pairs →
      fillOneCertSigner env s.cert_key_pairs p = .error e →
      ∀ t, fill_cert_key_signers env s ≠ .ok t) := by
  refine ⟨?_, ?_, ?_⟩
  · intro hself
    simp [fillOneCertSigner, hself]
  · intro hnotself hall
    have hscan := scanCandidates_all_fail env p.distributed_cert.certificate.original
      pairs 0 none hall
    simp [fillOneCertSigner, hnotself, hscan]
  · intro s e hmem hfail t hok
    cases hmap : mapE (fillOneCertSigner env s.cert_key_pairs) s.cert_key_pairs with
    | error e' => simp [fill_cert_key_signers, hmap] at hok
    | ok pairs' =>
      exact mapE_ok_ne _ s.cert_key_pairs p e hmem hfail pairs' hmap

/-- Witness for C8: a self-signed pair resolves to no signer, a
non-self-signed pair with no verifying candidate aborts naming its
locations, and that abort propagates to the whole phase. -/
theorem fill_cert_key_signers_self_signed_witness :
    fillOneCertSigner envC8 [] (pairW x0W) = .ok { pairW x0W with signer := none } ∧
    fillOneCertSigner envC8 sC8.cert_key_pairs (pairW x1W) =
      .error (.noSigningCert (pairW x1W).distributed_cert.locations) ∧
    fill_cert_key_signers envC8 sC8 ≠ .ok sC8 := by
  have h0 := fill_cert_key_signers_self_signed_and_no_signer envC8 [] (pairW x0W)
  have h1 := fill_cert_key_signers_self_signed_and_no_signer envC8 sC8.cert_key_pairs (pairW x1W)
  have hfail : fillOneCertSigner envC8 sC8.cert_key_pairs (pairW x1W) =
      .error (.noSigningCert (pairW x1W).distributed_cert.locations) := by
    refine h1.2.1 (by decide) ?_
    intro m q hq
    refine ⟨?_, ?_⟩
    · rcases m with _ | n
      · simp only [sC8, emptyState, List.getElem?_cons_zero, Option.some.injEq] at hq
        subst hq
        decide
      · simp [sC8, emptyState] at hq
    · intro msg h
      simp [envC8] at h
  refine ⟨h0.1 (by decide), hfail, ?_⟩
  exact h1.2.2 sC8 (.noSigningCert (pairW x1W).distributed_cert.locations)
    (by simp [sC8, emptyState]) hfail sC8

theorem processCert_ok_cases (env : CryptoEnv)
    (pks : List (PrivateKey × DistributedPrivateKey)) (p2p : List (PublicKey × PrivateKey))
    (dc : DistributedCert) (pair : CertKeyPair)
    (pks1 : List (PrivateKey × DistributedPrivateKey))
    (h : processCert env pks p2p dc = .ok (pair, pks1)) :
    pair.distributed_cert = dc ∧
    ((∃ priv dk, lookupA p2p dc.certificate.public_key = some priv ∧
        lookupA pks priv = some dk ∧
        pair = { freshPair dc with distributed_private_key := some dk } ∧
        pks1 = removeA pks priv) ∨
      (lookupA p2p dc.certificate.public_key = none ∧ pair = freshPair dc ∧ pks1 = pks)) := by
  simp only [processCert] at h
  cases hx : lookupA p2p dc.certificate.public_key with
  | some priv =>
    simp only [hx] at h
    cases hy : lookupA pks priv with
    | some dk =>
      simp only [hy, Except.ok.injEq, Prod.mk.injEq] at h
      obtain ⟨hpair, hpks⟩ := h
      refine ⟨?_, Or.inl ⟨priv, dk, rfl, hy, hpair.symm, hpks.symm⟩⟩
      rw [← hpair]
      rfl
    | none =>
      simp [hy] at h
  | none =>
    simp only [hx] at h
    by_cases hknown : knownMissingMatches env dc.certificate.subject = true
    · rw [if_pos hknown] at h
      simp only [Except.ok.injEq, Prod.mk.injEq] at h
      obtain ⟨hpair, hpks⟩ := h
      refine ⟨?_, Or.inr ⟨rfl, hpair.symm, hpks.symm⟩⟩
      rw [← hpair]
      rfl
    · rw [if_neg hknown] at h
      simp at h

theorem pairLoop_certs (env : CryptoEnv) (p2p : List (PublicKey × PrivateKey)) :
    ∀ (certs : List (Certificate × DistributedCert))
      (pks pks' : List (PrivateKey × DistributedPrivateKey)) (ps : List CertKeyPair),
    pairLoop env p2p pks certs = .ok (ps, pks') →
    ps.map (fun p => p.distributed_cert) = certs.map (fun kv => kv.2) := by
  intro certs
  induction certs with
  | nil =>
    intro pks pks' ps h
    simp only [pairLoop, Except.ok.injEq, Prod.mk.injEq] at h
    rw [← h.1]
    simp
  | cons kv rest ih =>
    intro pks pks' ps h
    obtain ⟨c, dc⟩ := kv
    cases hpc : processCert env pks p2p dc with
    | error e => simp [pairLoop, hpc] at h
    | ok pr =>
      obtain ⟨pair, pks1⟩ := pr
      cases hrec : pairLoop env p2p pks1 rest with
      | error e => simp [pairLoop, hpc, hrec] at h
      | ok pr2 =>
        obtain ⟨pairs2, pks2⟩ := pr2
        simp only [pairLoop, hpc, hrec, Except.ok.injEq, Prod.mk.injEq] at h
        obtain ⟨hps, hpks⟩ := h
        rw [← hps]
        simp only [List.map_cons, List.cons.injEq]
        exact ⟨(processCert_ok_cases env pks p2p dc pair pks1 hpc).1, ih pks1 pks2 pairs2 hrec⟩

theorem pairLoop_keys_gone (env : CryptoEnv) (p2p : List (PublicKey × PrivateKey)) :
    ∀ (certs : List (Certificate × DistributedCert))
      (pks pks' : List (PrivateKey × DistributedPrivateKey)) (ps : List CertKeyPair),
    pairLoop env p2p pks certs = .ok (ps, pks') →
    ∀ k, lookupA pks k = none → lookupA pks' k = none := by
  intro certs
  induction certs with
  | nil =>
    intro pks pks' ps h k hk
    simp only [pairLoop, Except.ok.injEq, Prod.mk.injEq] at h
    rw [← h.2]
    exact hk
  | cons kv rest ih =>
    intro pks pks' ps h k hk
    obtain ⟨c, dc⟩ := kv
    cases hpc : processCert env pks p2p dc with
    | error e => simp [pairLoop, hpc] at h
    | ok pr =>
      obtain ⟨pair, pks1⟩ := pr
      cases hrec : pairLoop env p2p pks1 rest with
      | error e => simp [pairLoop, hpc, hrec] at h
      | ok pr2 =>
        obtain ⟨pairs2, pks2⟩ := pr2
        simp only [pairLoop, hpc, hrec, Except.ok.injEq, Prod.mk.injEq] at h
        obtain ⟨hps, hpks⟩ := h
        rcases (processCert_ok_cases env pks p2p dc pair pks1 hpc).2 with
          ⟨priv, dk, _, _, _, hpks1⟩ | ⟨_, _, hpks1⟩
        · subst hpks1
          rw [← hpks]
          exact ih _ pks2 pairs2 hrec k (lookupA_removeA_none hk)
        · subst hpks1
          rw [← hpks]
          exact ih _ pks2 pairs2 hrec k hk

theorem pairLoop_indexed_removed (env : CryptoEnv) (p2p : List (PublicKey × PrivateKey)) :
    ∀ (certs : List (Certificate × DistributedCert))
      (pks pks' : List (PrivateKey × DistributedPrivateKey)) (ps : List CertKeyPair),
    pairLoop env p2p pks certs = .ok (ps, pks') →
    ∀ kv ∈ certs, ∀ priv, lookupA p2p kv.2.certificate.public_key = some priv →
    lookupA pks' priv = none := by
  intro certs
  induction certs with
  | nil =>
    intro pks pks' ps _ kv hkv
    simp at hkv
  | cons hd rest ih =>
    intro pks pks' ps h kv hkv priv hpriv
    obtain ⟨c, dc⟩ := hd
    cases hpc : processCert env pks p2p dc with
    | error e => simp [pairLoop, hpc] at h
    | ok pr =>
      obtain ⟨pair, pks1⟩ := pr
      cases hrec : pairLoop env p2p pks1 rest with
      | error e => simp [pairLoop, hpc, hrec] at h
      | ok pr2 =>
        obtain ⟨pairs2, pks2⟩ := pr2
        simp only [pairLoop, hpc, hrec, Except.ok.injEq, Prod.mk.injEq] at h
        obtain ⟨hps, hpks⟩ := h
        rcases List.mem_cons.mp hkv with heq | hmem
        · subst heq
          rcases (processCert_ok_cases env pks p2p dc pair pks1 hpc).2 with
            ⟨priv0, dk, hl, _, _, hpks1⟩ | ⟨hl, _, _⟩
          · have heq : priv0 = priv := by
              rw [hl] at hpriv
              exact Option.some.inj hpriv
            rw [heq] at hpks1
            subst hpks1
            rw [← hpks]
            exact pairLoop_keys_gone env p2p rest _ pks2 pairs2 hrec priv
              (lookupA_removeA_self pks priv)
          · rw [hl] at hpriv
            exact absurd hpriv (by simp)
        · rw [← hpks]
          exact ih pks1 pks2 pairs2 hrec kv hmem priv hpriv

theorem pairLoop_transferred (env : CryptoEnv) (p2p : List (PublicKey × PrivateKey)) :
    ∀ (certs : List (Certificate × DistributedCert))
      (pks pks' : List (PrivateKey × DistributedPrivateKey)) (ps : List CertKeyPair),
    pairLoop env p2p pks certs = .ok (ps, pks') →
    ∀ kv ∈ certs, lookupA p2p kv.2.certificate.public_key ≠ none →
    ∃ p ∈ ps, p.distributed_cert = kv.2 ∧ p.distributed_private_key ≠ none := by
  intro certs
  induction certs with
  | nil =>
    intro pks pks' ps _ kv hkv
    simp at hkv
  | cons hd rest ih =>
    intro pks pks' ps h kv hkv hpriv
    obtain ⟨c, dc⟩ := hd
    cases hpc : processCert env pks p2p dc with
    | error e => simp [pairLoop, hpc] at h
    | ok pr =>
      obtain ⟨pair, pks1⟩ := pr
      cases hrec : pairLoop env p2p pks1 rest with
      | error e => simp [pairLoop, hpc, hrec] at h
      | ok pr2 =>
        obtain ⟨pairs2, pks2⟩ := pr2
        simp only [pairLoop, hpc, hrec, Except.ok.injEq, Prod.mk.injEq] at h
        obtain ⟨hps, hpks⟩ := h
        rcases List.mem_cons.mp hkv with heq | hmem
        · subst heq
          rcases (processCert_ok_cases env pks p2p dc pair pks1 hpc).2 with
            ⟨priv0, dk, _, _, hpair, _⟩ | ⟨hl, _, _⟩
          · refine ⟨pair, ?_, (processCert_ok_cases env pks p2p dc pair pks1 hpc).1, ?_⟩
            · rw [← hps]
              exact List.mem_cons_self _ _
            · rw [hpair]
              simp
          · exact absurd hl hpriv
        · obtain ⟨p, hp, hcert, hkey⟩ := ih pks1 pks2 pairs2 hrec kv hmem hpriv
          refine ⟨p, ?_, hcert, hkey⟩
          rw [← hps]
          exact List.mem_cons_of_mem _ hp

theorem countP_fst_eq_one {κ ρ : Type} [DecidableEq κ] :
    ∀ (l : List (κ × ρ)) (c : κ), (l.map Prod.fst).Nodup →
    (∃ v, (c, v) ∈ l) →
    l.countP (fun kv => decide (kv.1 = c)) = 1 := by
  intro l
  induction l with
  | nil =>
    intro c _ hmem
    simp at hmem
  | cons hd rest ih =>
    intro c hnodup hmem
    obtain ⟨k, v⟩ := hd
    simp only [List.map_cons, List.nodup_cons] at hnodup
    obtain ⟨hknot, hrest⟩ := hnodup
    by_cases hk : k = c
    · subst hk
      have hzero : rest.countP (fun kv => decide (kv.1 = k)) = 0 := by
        rw [List.countP_eq_zero]
        intro kv hkv
        simp only [decide_eq_true_eq]
        intro hfst
        exact hknot (hfst ▸ List.mem_map_of_mem Prod.fst hkv)
      simp [List.countP_cons, hzero]
    · obtain ⟨v', hv'⟩ := hmem
      rcases List.mem_cons.mp hv' with heq | hmem'
      · exact absurd (congrArg Prod.fst heq).symm hk
      · have := ih c hrest ⟨v', hmem'⟩
        simp [List.countP_cons, hk, this]

/-- C4.  If `pair_certs_and_keys` returns normally (starting from a state
with no pre-existing pairs, a duplicate-free cert registry whose records
match their keys), then the cert registry is empty, every certificate that
was in it lives inside exactly one newly created pair, and every private key
the public-to-private index associated with some cert's subject public key
has been removed from the standalone registry (its pair carries a key). -/
theorem pair_certs_and_keys_postconditions
    (env : CryptoEnv) (s s' : ClusterCryptoObjectsInternal)
    (hok : pair_certs_and_keys env s = .ok s')
    (hpairs : s.cert_key_pairs = [])
    (hnodup : (s.certs.map Prod.fst).Nodup)
    (hkeyinv : ∀ kv ∈ s.certs, kv.2.certificate = kv.1) :
    s'.certs = [] ∧
    (∀ kv ∈ s.certs,
      s'.cert_key_pairs.countP (fun p => decide (p.distributed_cert.certificate = kv.1)) = 1) ∧
    (∀ kv ∈ s.certs, ∀ priv,
      lookupA s.public_to_private kv.2.certificate.public_key = some priv →
      lookupA s'.private_keys priv = none) ∧
    (∀ kv ∈ s.certs, lookupA s.public_to_private kv.2.certificate.public_key ≠ none →
      ∃ p ∈ s'.cert_key_pairs, p.distributed_cert = kv.2 ∧ p.distributed_private_key ≠ none) := by
  cases hloop : pairLoop env s.public_to_private s.private_keys s.certs with
  | error e => simp [pair_certs_and_keys, hloop] at hok
  | ok pr =>
    obtain ⟨ps, pks'⟩ := pr
    simp only [pair_certs_and_keys, hloop, Except.ok.injEq] at hok
    subst hok
    refine ⟨rfl, ?_, ?_, ?_⟩
    · intro kv hkv
      show (s.cert_key_pairs ++ ps).countP _ = 1
      rw [hpairs, List.nil_append]
      have hmap := pairLoop_certs env s.public_to_private s.certs
        s.private_keys pks' ps hloop
      have hcnt : ps.countP (fun p => decide (p.distributed_cert.certificate = kv.1)) =
          (ps.map (fun p => p.distributed_cert)).countP
            (fun dcert => decide (dcert.certificate = kv.1)) := by
        rw [List.countP_map]
        rfl
      rw [hcnt, hmap, List.countP_map]
      have hcongr : s.certs.countP
            ((fun dcert => decide (dcert.certificate = kv.1)) ∘ fun kv => kv.2) =
          s.certs.countP (fun kv2 => decide (kv2.1 = kv.1)) := by
        apply List.countP_congr
        intro a ha
        simp only [Function.comp_apply, decide_eq_true_eq, decide_eq_decide]
        rw [hkeyinv a ha]
      rw [hcongr]
      refine countP_fst_eq_one s.certs kv.1 hnodup ⟨kv.2, ?_⟩
      rw [Prod.mk.eta]
      exact hkv
    · intro kv hkv priv hpriv
      exact pairLoop_indexed_removed env s.public_to_private s.certs
        s.private_keys pks' ps hloop kv hkv priv hpriv
    · intro kv hkv hne
      obtain ⟨p, hp, hcert, hkey⟩ := pairLoop_transferred env s.public_to_private s.certs
        s.private_keys pks' ps hloop kv hkv hne
      exact ⟨p, List.mem_append_right _ hp, hcert, hkey⟩

/-- Witness for C4 on a one-cert state whose subject public key is indexed
to the registry key 5. -/
theorem pair_certs_and_keys_postconditions_witness :
    sC4'.certs = [] ∧
    sC4'.cert_key_pairs.countP
      (fun p => decide (p.distributed_cert.certificate = (dcertW x1W).certificate)) = 1 ∧
    lookupA sC4'.private_keys 5 = none := by
  have h := pair_certs_and_keys_postconditions envC5 sC4 sC4' (by rfl) rfl (by simp [sC4])
    (by
      intro kv hkv
      simp only [sC4, emptyState, List.mem_singleton] at hkv
      subst hkv
      rfl)
  refine ⟨h.1, ?_, ?_⟩
  · exact h.2.1 ((dcertW x1W).certificate, dcertW x1W) (by simp [sC4])
  · exact h.2.2.1 ((dcertW x1W).certificate, dcertW x1W) (by simp [sC4]) 5 rfl

/-- C5.  The error handling of each `pair_certs_and_keys` iteration: a cert
whose subject public key is indexed but whose indexed private key is absent
from the registry hits the internal-consistency panic; a cert absent from
the index succeeds with no private key exactly when its subject matches the
allowlist (literally or as a regex pattern, folded into
`knownMissingMatches`), and otherwise aborts naming the cert's subject and
locations. -/
theorem processCert_error_handling
    (env : CryptoEnv) (pks : List (PrivateKey × DistributedPrivateKey))
    (p2p : List (PublicKey × PrivateKey)) (dc : DistributedCert) :
    (∀ priv, lookupA p2p dc.certificate.public_key = some priv →
      lookupA pks priv = none →
      processCert env pks p2p dc = .error .privateKeyNotFound) ∧
    (lookupA p2p dc.certificate.public_key = none →
      (knownMissingMatches env dc.certificate.subject = true →
        processCert env pks p2p dc = .ok (freshPair dc, pks) ∧
        (freshPair dc).distributed_private_key = none) ∧
      (knownMissingMatches env dc.certificate.subject = false →
        processCert env pks p2p dc = .error
          (.missingKeyNotAllowed dc.certificate.subject dc.locations))) := by
  constructor
  · intro priv hidx habs
    simp [processCert, hidx, habs]
  · intro hidx
    constructor
    · intro hknown
      exact ⟨by simp [processCert, hidx, hknown], rfl⟩
    · intro hknown
      simp [processCert, hidx, hknown]

/-- Witness for C5: the three error-handling branches at concrete inputs
(the indexed-but-absent panic, the allowlisted cert, the unlisted cert). -/
theorem processCert_error_handling_witness :
    processCert envC5 [] [(0, 5)] (dcertW x1W) = .error .privateKeyNotFound ∧
    (processCert envC5 [] [] dcKnown = .ok (freshPair dcKnown, []) ∧
      (freshPair dcKnown).distributed_private_key = none) ∧
    processCert envC5 [] [] dcUnknown =
      .error (.missingKeyNotAllowed "cn=other" ⟨[2]⟩) := by
  refine ⟨?_, ?_, ?_⟩
  · exact (processCert_error_handling envC5 [] [(0, 5)] (dcertW x1W)).1 5 rfl rfl
  · exact ((processCert_error_handling envC5 [] [] dcKnown).2 rfl).1 (by decide)
  · exact ((processCert_error_handling envC5 [] [] dcUnknown).2 rfl).2 (by decide)

/-- C9.  Two distinct certs sharing one subject public key, indexed to a
private key present in the registry, make `pair_certs_and_keys` hit the
internal-consistency panic "Private key not found" on the second cert: the
first iteration removes the shared key from the registry while the
public-to-private index entry persists. -/
theorem pair_certs_and_keys_shared_key_panics
    (env : CryptoEnv) (s : ClusterCryptoObjectsInternal)
    (c1 c2 : Certificate) (d1 d2 : DistributedCert) (P : PublicKey) (priv : PrivateKey)
    (dk : DistributedPrivateKey)
    (hcerts : s.certs = [(c1, d1), (c2, d2)])
    (_hne : c1 ≠ c2)
    (hp1 : d1.certificate.public_key = P)
    (hp2 : d2.certificate.public_key = P)
    (hidx : lookupA s.public_to_private P = some priv)
    (hpk : lookupA s.private_keys priv = some dk) :
    pair_certs_and_keys env s = .error .privateKeyNotFound := by
  have h1 : processCert env s.private_keys s.public_to_private d1 =
      .ok ({ freshPair d1 with distributed_private_key := some dk },
           removeA s.private_keys priv) := by
    simp [processCert, hp1, hidx, hpk]
  have h2 : processCert env (removeA s.private_keys priv) s.public_to_private d2 =
      .error .privateKeyNotFound := by
    simp [processCert, hp2, hidx, lookupA_removeA_self]
  unfold pair_certs_and_keys
  rw [hcerts]
  simp only [pairLoop, h1, h2]

/-- Witness for C9: the concrete two-cert state `sC9` aborts with the
internal-consistency panic. -/
theorem pair_certs_and_keys_shared_key_panics_witness :
    pair_certs_and_keys envC5 sC9 = .error .privateKeyNotFound := by
  exact pair_certs_and_keys_shared_key_panics envC5 sC9
    (dcertW x0W).certificate (dcertW x1W).certificate (dcertW x0W) (dcertW x1W)
    0 5 dkW rfl (by decide) rfl rfl rfl rfl

theorem assertPairsFrom_get (s : ClusterCryptoObjectsInternal) :
    ∀ (l : List CertKeyPair) (n : Nat), assertPairsFrom s n l = true →
    ∀ (k : Nat) (p : CertKeyPair), l[k]? = some p → assertPair s (n + k) p = true := by
  intro l
  induction l with
  | nil =>
    intro n _ k p hk
    simp at hk
  | cons p0 rest ih =>
    intro n h k p hk
    simp only [assertPairsFrom, Bool.and_eq_true] at h
    cases k with
    | zero =>
      simp only [List.getElem?_cons_zero, Option.some.injEq] at hk
      subst hk
      simpa using h.1
    | succ k' =>
      simp only [List.getElem?_cons_succ] at hk
      have := ih (n + 1) h.2 k' p hk
      have harith : n + 1 + k' = n + (k' + 1) := by omega
      rwa [harith] at this

/-- C3.  If `regenerate_crypto` returns normally then every cert-key pair,
standalone private key, standalone public key and jwt is regenerated; every
pair with a signer has a regenerated signer whose non-empty signees list
contains this pair and consists only of regenerated records; and the
standalone cert registry is empty. -/
theorem regenerate_crypto_postconditions
    (regen : ClusterCryptoObjectsInternal → ClusterCryptoObjectsInternal)
    (s s' : ClusterCryptoObjectsInternal)
    (hok : regenerate_crypto regen s = .ok s') :
    (∀ p ∈ s'.cert_key_pairs, p.regenerated = true) ∧
    (∀ kv ∈ s'.private_keys, kv.2.regenerated = true) ∧
    (∀ kv ∈ s'.public_keys, kv.2.regenerated = true) ∧
    (∀ kv ∈ s'.jwts, kv.2.regenerated = true) ∧
    (∀ (i : Nat) (p : CertKeyPair) (si : Nat),
      s'.cert_key_pairs[i]? = some p → p.signer = some si →
      ∃ sp, s'.cert_key_pairs[si]? = some sp ∧ sp.regenerated = true ∧
        sp.signees ≠ [] ∧ Signee.CertKeyPair i ∈ sp.signees ∧
        ∀ sg ∈ sp.signees, assertSignee s' sg = true) ∧
    s'.certs = [] := by
  have hA : assert_regeneration s' = true := by
    cases hA0 : assert_regeneration (regen s) with
    | true =>
      simp only [regenerate_crypto, hA0, if_true, Except.ok.injEq] at hok
      rwa [← hok]
    | false => simp [regenerate_crypto, hA0] at hok
  simp only [assert_regeneration, Bool.and_eq_true, List.all_eq_true, decide_eq_true_eq] at hA
  obtain ⟨⟨⟨⟨hpairs, hpub⟩, hjwts⟩, hpriv⟩, hlen⟩ := hA
  have hpget : ∀ (k : Nat) (p : CertKeyPair), s'.cert_key_pairs[k]? = some p →
      assertPair s' k p = true := by
    intro k p hk
    have := assertPairsFrom_get s' s'.cert_key_pairs 0 hpairs k p hk
    simpa using this
  refine ⟨?_, hpriv, hpub, hjwts, ?_, List.length_eq_zero.mp hlen⟩
  · intro p hp
    obtain ⟨k, hk⟩ := List.mem_iff_getElem?.mp hp
    have := hpget k p hk
    simp only [assertPair, Bool.and_eq_true] at this
    exact this.2
  · intro i p si hi hsig
    have hap := hpget i p hi
    simp only [assertPair, Bool.and_eq_true] at hap
    obtain ⟨hsigner, _⟩ := hap
    rw [hsig] at hsigner
    cases hsp : s'.cert_key_pairs[si]? with
    | none => simp [hsp] at hsigner
    | some sp =>
      simp only [hsp, Bool.and_eq_true, List.all_eq_true, decide_eq_true_eq] at hsigner
      obtain ⟨⟨⟨hreg, hlen0⟩, hall⟩, hmem⟩ := hsigner
      refine ⟨sp, rfl, hreg, ?_, hmem, hall⟩
      intro hnil
      rw [hnil] at hlen0
      simp at hlen0

/-- Witness for C3 on a concrete successful regeneration run ending in
`sC3`. -/
theorem regenerate_crypto_postconditions_witness :
    (∀ p ∈ sC3.cert_key_pairs, p.regenerated = true) ∧
    (∀ kv ∈ sC3.private_keys, kv.2.regenerated = true) ∧
    sC3.certs = [] := by
  have h := regenerate_crypto_postconditions (fun _ => sC3) emptyState sC3 (by rfl)
  exact ⟨h.1, h.2.1, h.2.2.2.2.2⟩

theorem lookupA_mem {κ ρ : Type} [DecidableEq κ] :
    ∀ {m : List (κ × ρ)} {k : κ} {v : ρ}, lookupA m k = some v → (k, v) ∈ m := by
  intro m
  induction m with
  | nil =>
    intro k v h
    simp [lookupA] at h
  | cons kv rest ih =>
    intro k v h
    obtain ⟨k', v'⟩ := kv
    by_cases hk : k' = k
    · subst hk
      have h' : v' = v := by simpa [lookupA] using h
      subst h'
      exact List.mem_cons_self _ _
    · simp only [lookupA, if_neg hk] at h
      exact List.mem_cons_of_mem _ (ih h)

theorem jwtSigneesOfPair_ok_eq (i : Nat) :
    ∀ (l : List (Jwt × DistributedJwt)) (r : List Signee),
    jwtSigneesOfPair i l = .ok r →
    r = l.filterMap (fun kv =>
      if kv.2.signer = .CertKeyPair i then some (Signee.Jwt kv.1) else none) := by
  intro l
  induction l with
  | nil =>
    intro r h
    simp only [jwtSigneesOfPair, Except.ok.injEq] at h
    simp [← h]
  | cons kv rest ih =>
    intro r h
    obtain ⟨k, dj⟩ := kv
    cases hs : dj.signer with
    | Unknown => simp [jwtSigneesOfPair, hs] at h
    | CertKeyPair m =>
      cases hrec : jwtSigneesOfPair i rest with
      | error e => simp [jwtSigneesOfPair, hs, hrec] at h
      | ok l0 =>
        simp only [jwtSigneesOfPair, hs, hrec, Except.ok.injEq] at h
        subst h
        by_cases hmi : m = i
        · subst hmi
          simp [List.filterMap_cons, hs, ih l0 hrec]
        · have : JwtSigner.CertKeyPair m ≠ JwtSigner.CertKeyPair i := by
            intro hcontra
            exact hmi (JwtSigner.CertKeyPair.inj hcontra)
          simp [List.filterMap_cons, hs, hmi, this, ih l0 hrec]
    | PrivateKey k' =>
      simp only [jwtSigneesOfPair, hs] at h
      have : JwtSigner.PrivateKey k' ≠ JwtSigner.CertKeyPair i := by
        intro hcontra
        cases hcontra
      simp [List.filterMap_cons, hs, this, ih r h]

theorem jwtSigneesOfKey_ok_eq (key : PrivateKey) :
    ∀ (l : List (Jwt × DistributedJwt)) (r : List Signee),
    jwtSigneesOfKey key l = .ok r →
    r = l.filterMap (fun kv =>
      if kv.2.signer = .PrivateKey key then some (Signee.Jwt kv.1) else none) := by
  intro l
  induction l with
  | nil =>
    intro r h
    simp only [jwtSigneesOfKey, Except.ok.injEq] at h
    simp [← h]
  | cons kv rest ih =>
    intro r h
    obtain ⟨k, dj⟩ := kv
    cases hs : dj.signer with
    | Unknown => simp [jwtSigneesOfKey, hs] at h
    | PrivateKey k' =>
      cases hrec : jwtSigneesOfKey key rest with
      | error e => simp [jwtSigneesOfKey, hs, hrec] at h
      | ok l0 =>
        simp only [jwtSigneesOfKey, hs, hrec, Except.ok.injEq] at h
        subst h
        by_cases hk : k' = key
        · subst hk
          simp [List.filterMap_cons, hs, ih l0 hrec]
        · have : JwtSigner.PrivateKey k' ≠ JwtSigner.PrivateKey key := by
            intro hcontra
            exact hk (JwtSigner.PrivateKey.inj hcontra)
          simp [List.filterMap_cons, hs, hk, this, ih l0 hrec]
    | CertKeyPair m =>
      simp only [jwtSigneesOfKey, hs] at h
      have : JwtSigner.CertKeyPair m ≠ JwtSigner.PrivateKey key := by
        intro hcontra
        cases hcontra
      simp [List.filterMap_cons, hs, this, ih r h]

theorem jwtSigneesOfPair_unknown_mem (i : Nat) :
    ∀ (l : List (Jwt × DistributedJwt)) (k : Jwt) (dj : DistributedJwt),
    (k, dj) ∈ l → dj.signer = .Unknown →
    jwtSigneesOfPair i l = .error "JWT has unknown signer" := by
  intro l
  induction l with
  | nil =>
    intro k dj hmem
    simp at hmem
  | cons kv rest ih =>
    intro k dj hmem hunk
    obtain ⟨k0, dj0⟩ := kv
    cases hs : dj0.signer with
    | Unknown => simp [jwtSigneesOfPair, hs]
    | CertKeyPair m =>
      rcases List.mem_cons.mp hmem with heq | hmem'
      · rw [Prod.mk.injEq] at heq
        rw [← heq.2] at hs
        rw [hunk] at hs
        cases hs
      · simp [jwtSigneesOfPair, hs, ih k dj hmem' hunk]
    | PrivateKey k' =>
      rcases List.mem_cons.mp hmem with heq | hmem'
      · rw [Prod.mk.injEq] at heq
        rw [← heq.2] at hs
        rw [hunk] at hs
        cases hs
      · simp [jwtSigneesOfPair, hs, ih k dj hmem' hunk]

theorem jwtSigneesOfKey_unknown_mem (key : PrivateKey) :
    ∀ (l : List (Jwt × DistributedJwt)) (k : Jwt) (dj : DistributedJwt),
    (k, dj) ∈ l → dj.signer = .Unknown →
    jwtSigneesOfKey key l = .error "JWT has unknown signer" := by
  intro l
  induction l with
  | nil =>
    intro k dj hmem
    simp at hmem
  | cons kv rest ih =>
    intro k dj hmem hunk
    obtain ⟨k0, dj0⟩ := kv
    cases hs : dj0.signer with
    | Unknown => simp [jwtSigneesOfKey, hs]
    | CertKeyPair m =>
      rcases List.mem_cons.mp hmem with heq | hmem'
      · rw [Prod.mk.injEq] at heq
        rw [← heq.2] at hs
        rw [hunk] at hs
        cases hs
      · simp [jwtSigneesOfKey, hs, ih k dj hmem' hunk]
    | PrivateKey k' =>
      rcases List.mem_cons.mp hmem with heq | hmem'
      · rw [Prod.mk.injEq] at heq
        rw [← heq.2] at hs
        rw [hunk] at hs
        cases hs
      · simp [jwtSigneesOfKey, hs, ih k dj hmem' hunk]

theorem certSigneesGo_eq_filterMap (pairs : List CertKeyPair) (cert : X509) :
    ∀ (l : List CertKeyPair) (n : Nat),
    certSigneesGo pairs cert n l = (List.enumFrom n l).filterMap (fun jq =>
      match jq.2.signer with
      | none => none
      | some k =>
        match pairs[k]? with
        | none => none
        | some sp =>
          if sp.distributed_cert.certificate.original = cert then
            some (Signee.CertKeyPair jq.1)
          else none) := by
  intro l
  induction l with
  | nil =>
    intro n
    simp [certSigneesGo, List.enumFrom]
  | cons q rest ih =>
    intro n
    rw [List.enumFrom_cons, List.filterMap_cons]
    cases hs : q.signer with
    | none => simp [certSigneesGo, hs, ih (n + 1)]
    | some k =>
      cases hsp : pairs[k]? with
      | none => simp [certSigneesGo, hs, hsp, ih (n + 1)]
      | some sp =>
        by_cases heq : sp.distributed_cert.certificate.original = cert
        · simp [certSigneesGo, hs, hsp, heq, ih (n + 1)]
        · simp [certSigneesGo, hs, hsp, heq, ih (n + 1)]

theorem fillPairSignees_ok_get (pairs : List CertKeyPair) (jwts : List (Jwt × DistributedJwt)) :
    ∀ (l : List CertKeyPair) (n : Nat) (l' : List CertKeyPair),
    fillPairSignees pairs jwts n l = .ok l' →
    ∀ (k : Nat) (p : CertKeyPair), l[k]? = some p →
    ∃ jp, jwtSigneesOfPair (n + k) jwts = .ok jp ∧
      l'[k]? = some { p with
        signees := certSigneesGo pairs p.distributed_cert.certificate.original 0 pairs ++ jp } := by
  intro l
  induction l with
  | nil =>
    intro n l' _ k p hk
    simp at hk
  | cons p0 rest ih =>
    intro n l' h k p hk
    cases hjp : jwtSigneesOfPair n jwts with
    | error e => simp [fillPairSignees, hjp] at h
    | ok jp0 =>
      cases hrec : fillPairSignees pairs jwts (n + 1) rest with
      | error e => simp [fillPairSignees, hjp, hrec] at h
      | ok rest' =>
        simp only [fillPairSignees, hjp, hrec, Except.ok.injEq] at h
        subst h
        cases k with
        | zero =>
          simp only [List.getElem?_cons_zero, Option.some.injEq] at hk
          subst hk
          exact ⟨jp0, by simpa using hjp, by simp⟩
        | succ k' =>
          simp only [List.getElem?_cons_succ] at hk ⊢
          obtain ⟨jp, hjp', hl'⟩ := ih (n + 1) rest' hrec k' p hk
          have harith : n + 1 + k' = n + (k' + 1) := by omega
          exact ⟨jp, by rwa [harith] at hjp', hl'⟩

theorem fillKeySignees_ok_lookup (jwts : List (Jwt × DistributedJwt)) :
    ∀ (l : List (PrivateKey × DistributedPrivateKey))
      (l' : List (PrivateKey × DistributedPrivateKey)),
    fillKeySignees jwts l = .ok l' →
    ∀ (k : PrivateKey) (dpk : DistributedPrivateKey), lookupA l k = some dpk →
    ∃ new, jwtSigneesOfKey dpk.key jwts = .ok new ∧
      lookupA l' k = some { dpk with signees := dpk.signees ++ new } := by
  intro l
  induction l with
  | nil =>
    intro l' _ k dpk hk
    simp [lookupA] at hk
  | cons kv rest ih =>
    intro l' h k dpk hk
    obtain ⟨k0, d0⟩ := kv
    cases hnew : jwtSigneesOfKey d0.key jwts with
    | error e => simp [fillKeySignees, hnew] at h
    | ok new0 =>
      cases hrec : fillKeySignees jwts rest with
      | error e => simp [fillKeySignees, hnew, hrec] at h
      | ok rest' =>
        simp only [fillKeySignees, hnew, hrec, Except.ok.injEq] at h
        subst h
        by_cases hk0 : k0 = k
        · subst hk0
          have h' : d0 = dpk := by simpa [lookupA] using hk
          subst h'
          exact ⟨new0, hnew, by simp [lookupA]⟩
        · simp only [lookupA, if_neg hk0] at hk
          obtain ⟨new, hnew', hl'⟩ := ih rest' hrec k dpk hk
          exact ⟨new, hnew', by simpa [lookupA, hk0] using hl'⟩

/-- C6.  On success, `fill_signees` sets every pair's signees list to
exactly the pairs whose signer points at a pair with the same cert content
(compared by certificate content, not pair identity) followed by the jwts
whose signer is this very pair (by pair identity); and gives every
standalone private key, starting from an empty signees list, exactly the
jwts whose signer is that key. -/
theorem fill_signees_exact_signees
    (s s' : ClusterCryptoObjectsInternal)
    (hok : fill_signees s = .ok s')
    (hkeys0 : ∀ kv ∈ s.private_keys, kv.2.signees = []) :
    (∀ (i : Nat) (p : CertKeyPair), s.cert_key_pairs[i]? = some p →
      ∃ p', s'.cert_key_pairs[i]? = some p' ∧
        p'.signees =
          (s.cert_key_pairs.enum.filterMap (fun jq =>
            match jq.2.signer with
            | none => none
            | some k =>
              match s.cert_key_pairs[k]? with
              | none => none
              | some sp =>
                if sp.distributed_cert.certificate.original =
                    p.distributed_cert.certificate.original then
                  some (Signee.CertKeyPair jq.1)
                else none))
          ++ (s.jwts.filterMap (fun kv =>
              if kv.2.signer = .CertKeyPair i then some (Signee.Jwt kv.1) else none))) ∧
    (∀ (k : PrivateKey) (dpk : DistributedPrivateKey),
      lookupA s.private_keys k = some dpk →
      ∃ dpk', lookupA s'.private_keys k = some dpk' ∧
        dpk'.signees = s.jwts.filterMap (fun kv =>
          if kv.2.signer = .PrivateKey dpk.key then some (Signee.Jwt kv.1) else none)) := by
  cases hfp : fillPairSignees s.cert_key_pairs s.jwts 0 s.cert_key_pairs with
  | error e => simp [fill_signees, hfp] at hok
  | ok pairs' =>
    cases hfk : fillKeySignees s.jwts s.private_keys with
    | error e => simp [fill_signees, hfp, hfk] at hok
    | ok pks' =>
      simp only [fill_signees, hfp, hfk, Except.ok.injEq] at hok
      subst hok
      constructor
      · intro i p hi
        obtain ⟨jp, hjp, hl'⟩ := fillPairSignees_ok_get s.cert_key_pairs s.jwts
          s.cert_key_pairs 0 pairs' hfp i p hi
        refine ⟨_, hl', ?_⟩
        have hcert := certSigneesGo_eq_filterMap s.cert_key_pairs
          p.distributed_cert.certificate.original s.cert_key_pairs 0
        have hjwt := jwtSigneesOfPair_ok_eq i s.jwts jp (by simpa using hjp)
        rw [hcert, hjwt]
        rfl
      · intro k dpk hk
        obtain ⟨new, hnew, hl'⟩ := fillKeySignees_ok_lookup s.jwts
          s.private_keys pks' hfk k dpk hk
        refine ⟨_, hl', ?_⟩
        have hempty : dpk.signees = [] := hkeys0 (k, dpk) (lookupA_mem hk)
        rw [hempty, List.nil_append]
        exact jwtSigneesOfKey_ok_eq dpk.key s.jwts new hnew

/-- Witness for C6 on the concrete state `sC6`: the pair collects its jwt
signee, the standalone key collects its own. -/
theorem fill_signees_exact_signees_witness :
    (∃ p', sC6'.cert_key_pairs[0]? = some p' ∧
      p'.signees =
        (sC6.cert_key_pairs.enum.filterMap (fun jq =>
          match jq.2.signer with
          | none => none
          | some k =>
            match sC6.cert_key_pairs[k]? with
            | none => none
            | some sp =>
              if sp.distributed_cert.certificate.original =
                  (pairW x0W).distributed_cert.certificate.original then
                some (Signee.CertKeyPair jq.1)
              else none))
        ++ (sC6.jwts.filterMap (fun kv =>
            if kv.2.signer = .CertKeyPair 0 then some (Signee.Jwt kv.1) else none))) ∧
    (∃ dpk', lookupA sC6'.private_keys 3 = some dpk' ∧
      dpk'.signees = sC6.jwts.filterMap (fun kv =>
        if kv.2.signer = .PrivateKey dk3.key then some (Signee.Jwt kv.1) else none)) := by
  have h := fill_signees_exact_signees sC6 sC6' (by rfl)
    (by
      intro kv hkv
      simp only [sC6, emptyState, List.mem_singleton] at hkv
      subst hkv
      rfl)
  exact ⟨h.1 0 (pairW x0W) rfl, h.2 3 dk3 rfl⟩

/-- Counterexample for C10: with no cert-key pairs and no standalone private
keys, `fill_signees` is a silent no-op even though the jwt registry holds a
jwt whose signer is still Unknown — it does not panic as the claim states. -/
theorem fill_signees_noop_counterexample :
    (9, djU) ∈ sC10.jwts ∧ djU.signer = .Unknown ∧ fill_signees sC10 = .ok sC10 := by
  refine ⟨by simp [sC10, emptyState], rfl, by rfl⟩

/-- C10 (amended).  `fill_signees` panics with "JWT has unknown signer"
whenever some jwt still has an Unknown signer and at least one cert-key pair
or standalone private key exists (the loops that inspect jwt signers are
driven by those two collections). -/
theorem fill_signees_unknown_signer_panics
    (s : ClusterCryptoObjectsInternal) (k : Jwt) (dj : DistributedJwt)
    (hmem : (k, dj) ∈ s.jwts) (hunk : dj.signer = .Unknown)
    (hnonempty : s.cert_key_pairs ≠ [] ∨ s.private_keys ≠ []) :
    fill_signees s = .error "JWT has unknown signer" := by
  cases hcp : s.cert_key_pairs with
  | cons p rest =>
    have herr := jwtSigneesOfPair_unknown_mem 0 s.jwts k dj hmem hunk
    simp [fill_signees, hcp, fillPairSignees, herr]
  | nil =>
    rcases hnonempty with hpairs | hkeys
    · exact absurd hcp hpairs
    · cases hpk : s.private_keys with
      | nil => exact absurd hpk hkeys
      | cons kd rest' =>
        obtain ⟨k0, d0⟩ := kd
        have herr := jwtSigneesOfKey_unknown_mem d0.key s.jwts k dj hmem hunk
        simp [fill_signees, hcp, hpk, fillPairSignees, fillKeySignees, herr]

/-- Witness for the amended C10: one pair plus the unresolved jwt makes the
phase abort. -/
theorem fill_signees_unknown_signer_panics_witness :
    fill_signees sC10b = .error "JWT has unknown signer" :=
  fill_signees_unknown_signer_panics sC10b 9 djU (by simp [sC10b, emptyState]) rfl
    (Or.inl (by simp [sC10b, emptyState]))

/-- C1 (code evaluation).  Concrete run refuting the claimed registry
fallback: the standalone registry holds the signer of the second jwt
(key 11, whose public half verifies it), yet after the first jwt caches
key 10 the failed cache attempt skips the registry scan entirely — the scan
sits in the `else` branch of the cache check (line 335) — so the run panics
"JWT has unknown signer" instead of adopting key 11. -/
theorem fill_jwt_signers_cache_miss_panics :
    (lookupA sC1.private_keys 11).isSome = true ∧
    envC1.verifyJwt (envC1.pubOf 11) 2 = true ∧
    fill_jwt_signers envC1 sC1 = .error "JWT has unknown signer" := by
  refine ⟨by rfl, by decide, by rfl⟩
